import Mathlib

/-!
# gguf-split: shard planning, streaming and merge

A shallow embedding of `examples/gguf-split/gguf-split.cpp`.

* Files are kept in parsed form: a header (the metadata context that was
  serialised into the file) followed by the bytes of the data region.  Stream
  positions of input files are relative to the start of the data region, that
  is, to `gguf_get_data_offset`.
* The container codec (`gguf_*`, `ggml_*`, `llama_split_*`) lives outside the
  translated source file; the parts that are needed are modelled from the
  specification and are marked as such.
* `int` and `size_t` counters are unbounded numbers, except where the program
  narrows or overflows on ordinary inputs: the `uint16` split keys and the
  `int` product that computes the byte cap.
-/

namespace GgufSplit

set_option maxRecDepth 100000

/-! ## Container codec -/

/-- Modelled from the spec: the fixed power-of-two default alignment of the
archive format (the constant of `ggml.h`). -/
def GGUF_DEFAULT_ALIGNMENT : Nat := 32

/-- Modelled from the spec: the macro of `ggml.h`; `align(x)` rounds `x` up to
the next multiple of the alignment `n`. -/
def GGML_PAD (x n : Nat) : Nat := (x + n - 1) / n * n

/-- Key of the shard index (constant of `llama.h`). -/
def LLM_KV_SPLIT_NO : String := "split.no"

/-- Key of the shard count (constant of `llama.h`). -/
def LLM_KV_SPLIT_COUNT : String := "split.count"

/-- Key of the total tensor count (constant of `llama.h`). -/
def LLM_KV_SPLIT_TENSORS_COUNT : String := "split.tensors.count"

/-- A typed metadata value. -/
inductive gguf_value where
  | u16 (v : Nat)
  | i32 (v : Int)
  | str (s : String)
  | arr (bytes : List Nat)
  deriving DecidableEq, Repr

/-- A tensor descriptor: name, element type, shape and byte size
(`ggml_nbytes`). -/
structure ggml_tensor where
  name : String
  ttype : Nat
  ne : List Nat
  nbytes : Nat
  deriving DecidableEq, Repr

/-- Byte size of a tensor. -/
def ggml_nbytes (t : ggml_tensor) : Nat := t.nbytes

/-- A tensor descriptor together with its byte offset in the data region. -/
structure gguf_tensor_info where
  t : ggml_tensor
  offset : Nat
  deriving DecidableEq, Repr

/-- The metadata of one container: ordered key/value pairs and the ordered
tensor descriptors. -/
structure gguf_context where
  kv : List (String × gguf_value)
  infos : List gguf_tensor_info
  deriving DecidableEq, Repr

/-- Modelled from the spec: an empty metadata object. -/
def gguf_init_empty : gguf_context := { kv := [], infos := [] }

/-- Number of tensor descriptors. -/
def gguf_get_n_tensors (ctx : gguf_context) : Nat := ctx.infos.length

/-- Name of the `i`-th tensor descriptor. -/
def gguf_get_tensor_name (ctx : gguf_context) (i : Nat) : String :=
  match ctx.infos.get? i with
  | some info => info.t.name
  | none => ""

/-- Offset of the `i`-th tensor inside the data region. -/
def gguf_get_tensor_offset (ctx : gguf_context) (i : Nat) : Nat :=
  match ctx.infos.get? i with
  | some info => info.offset
  | none => 0

/-- Modelled from the spec: `setScalar(handle, key, value)`; an existing key
keeps its position, a new key is appended. -/
def gguf_set_val (ctx : gguf_context) (key : String) (v : gguf_value) : gguf_context :=
  if ctx.kv.any (fun p => p.1 == key) then
    { ctx with kv := ctx.kv.map (fun p => if p.1 == key then (p.1, v) else p) }
  else
    { ctx with kv := ctx.kv ++ [(key, v)] }

/-- Modelled from the spec: stores an `int` as `uint16`, so the value is
reduced modulo `2^16`. -/
def gguf_set_val_u16 (ctx : gguf_context) (key : String) (val : Nat) : gguf_context :=
  gguf_set_val ctx key (.u16 (val % 65536))

/-- Modelled from the spec: stores an `int` as `int32`. -/
def gguf_set_val_i32 (ctx : gguf_context) (key : String) (val : Int) : gguf_context :=
  gguf_set_val ctx key (.i32 val)

/-- Modelled from the spec: `copyAllKeys(dst, src)`. -/
def gguf_set_kv (ctx src : gguf_context) : gguf_context :=
  src.kv.foldl (fun c p => gguf_set_val c p.1 p.2) ctx

/-- Modelled from the spec: `findKey(handle, key)`. -/
def gguf_find_key (ctx : gguf_context) (key : String) : Option Nat :=
  ctx.kv.findIdx? (fun p => p.1 == key)

/-- Modelled from the spec: reads the `uint16` stored at a key index; a value of
another type fails the type assertion of the codec. -/
def gguf_get_val_u16 (ctx : gguf_context) (key_id : Nat) : Option Nat :=
  match ctx.kv.get? key_id with
  | some (_, .u16 v) => some v
  | _ => none

/-- Value stored under a key. -/
def gguf_get_val (ctx : gguf_context) (key : String) : Option gguf_value :=
  (ctx.kv.find? (fun p => p.1 == key)).map (fun p => p.2)

/-- Modelled from the spec: `addTensorDescriptor(handle, descriptor)`; the
offset follows from insertion order. -/
def gguf_add_tensor (ctx : gguf_context) (t : ggml_tensor) : gguf_context :=
  let offset := match ctx.infos.getLast? with
    | some last => last.offset + GGML_PAD (ggml_nbytes last.t) GGUF_DEFAULT_ALIGNMENT
    | none => 0
  { ctx with infos := ctx.infos ++ [{ t := t, offset := offset }] }

/-- Lookup of a tensor by name in the tensor context. -/
def ggml_get_tensor (ctx_meta : List ggml_tensor) (name : String) : Option ggml_tensor :=
  ctx_meta.find? (fun t => t.name == name)

/-- Modelled from the spec: the shard naming scheme, kept in structured form
(output template, shard index, shard count). -/
structure split_path where
  prefix_path : String
  split_no : Nat
  split_count : Nat
  deriving DecidableEq, Repr

/-- Modelled from the spec: file name of shard `i_split` of `n_split`. -/
def llama_split_path (prefix_path : String) (i_split n_split : Nat) : split_path :=
  { prefix_path := prefix_path, split_no := i_split, split_count := n_split }

/-- Modelled from the spec: the inverse of the naming scheme; the name must
carry exactly the expected index and count. -/
def llama_split_prefix (p : split_path) (i_split n_split : Nat) : Option String :=
  if p.split_no = i_split ∧ p.split_count = n_split then some p.prefix_path else none

/-! ## Files and streams -/

/-- A container file: the zero bytes reserved for the header, the header that
was patched over them, and the bytes that follow. -/
structure gguf_file where
  placeholder : Nat
  header : Option gguf_context
  header_size : Nat
  data : List Nat
  deriving DecidableEq, Repr

/-- Number of bytes of a file on disk. -/
def gguf_file.size (f : gguf_file) : Nat :=
  max (f.placeholder + f.data.length) f.header_size

/-- An input stream over the data region of a file. -/
structure ifstream where
  data : List Nat
  pos : Nat
  failbit : Bool
  deriving DecidableEq, Repr

/-- Opens the data region of a file for reading. -/
def ifstream.open (f : gguf_file) : ifstream :=
  { data := f.data, pos := 0, failbit := false }

/-- The call `seekg(gguf_get_data_offset + offset)`; a failed stream ignores it. -/
def ifstream.seekg (f : ifstream) (offset : Nat) : ifstream :=
  if f.failbit then f else { f with pos := offset }

/-- The call `read(buf, n)`: the bytes that are available, at most `n`, are
stored at the start of the buffer; a short read sets the fail bit. -/
def ifstream.read (f : ifstream) (buf : List Nat) (n : Nat) : ifstream × List Nat :=
  if f.failbit then (f, buf)
  else
    let got := (f.data.drop f.pos).take n
    let buf1 := got ++ buf.drop got.length
    if got.length < n then ({ f with pos := f.pos + got.length, failbit := true }, buf1)
    else ({ f with pos := f.pos + n }, buf1)

/-- The buffer growth `if (read_data.size() < n) read_data.resize(n)`. -/
def resize_read_data (buf : List Nat) (n : Nat) : List Nat :=
  if buf.length < n then buf ++ List.replicate (n - buf.length) 0 else buf

/-- The file found under a path among the files written so far; a later file
replaces an earlier one of the same name. -/
def fs_open (fs : List (split_path × gguf_file)) (p : split_path) : Option gguf_file :=
  match fs with
  | [] => none
  | (q, f) :: rest =>
    match fs_open rest p with
    | some g => some g
    | none => if q = p then some f else none

/-- The helper `zeros(file, n)`: appends `n` zero bytes. -/
def zeros (out : List Nat) (n : Nat) : List Nat := out ++ List.replicate n 0

/-- Modelled from the spec: `parse(path)`; yields the metadata and the tensor
context of a file whose header has been written. -/
def gguf_init_from_file (f : Option gguf_file) : Option (gguf_context × List ggml_tensor) :=
  match f with
  | none => none
  | some file =>
    match file.header with
    | none => none
    | some ctx => some (ctx, ctx.infos.map (fun info => info.t))

/-! ## Split parameters and the planner state -/

/-- The command line parameters that reach the engine. -/
structure split_params where
  n_split_tensors : Int
  no_tensors_in_metadata : Bool
  split_size : String
  input : String
  output : String
  deriving DecidableEq, Repr

/-- The two policies that implement the planner. -/
inductive strategy_kind where
  | max_tensors
  | max_size
  deriving DecidableEq, Repr

/-- The fields of `split_strategy` and of its two subclasses, together with the
shard files that have been closed so far. -/
structure split_strategy where
  kind : strategy_kind
  params : split_params
  f_input : ifstream
  ctx_gguf : gguf_context
  ctx_meta : List ggml_tensor
  n_tensors : Nat
  n_split : Nat
  i_split : Nat
  i_split_tensors_data : Int
  i_tensor : Nat
  n_bytes_written : Nat
  n_total_bytes : Nat
  read_data : List Nat
  ctx_out : gguf_context
  fout_path : split_path
  fout : gguf_file
  n_bytes_to_write : Nat
  n_bytes_per_split : Nat
  closed : List (split_path × gguf_file)
  deriving DecidableEq, Repr

/-- The ways in which the program stops before it is done. -/
inductive split_error where
  | open_failed
  | load_failed
  | usage
  | invalid_max_size
  | stoi_exception
  | size_too_small (idx n_bytes max_bytes : Nat)
  | null_tensor
  | no_split_count
  | invalid_split_count (n : Nat)
  | unexpected_file_name
  | type_assert
  | out_of_fuel
  deriving DecidableEq, Repr

/-- A run either stops with an error, together with the shard files that were
finalised before the stop, or yields a value. -/
abbrev split_result (α : Type) := Except (split_error × List (split_path × gguf_file)) α

/-- The value `ceil(1. * a / b)` for the integers the program passes; the
quotient of the doubles is exact enough for the ceiling to be the integer one
(`b` positive, `a` below `2^53`). -/
def ceil_div (a b : Nat) : Nat := (a + b - 1) / b

/-- The constructor of the base class. -/
def split_strategy.init (kind : strategy_kind) (params : split_params) (f_input : ifstream)
    (ctx_gguf : gguf_context) (ctx_meta : List ggml_tensor) : split_strategy :=
  { kind := kind
    params := params
    f_input := f_input
    ctx_gguf := ctx_gguf
    ctx_meta := ctx_meta
    n_tensors := gguf_get_n_tensors ctx_gguf
    n_split := 0
    i_split := 0
    i_split_tensors_data := 0
    i_tensor := 0
    n_bytes_written := 0
    n_total_bytes := (ctx_meta.map ggml_nbytes).sum
    read_data := []
    ctx_out := gguf_init_empty
    fout_path := llama_split_path params.output 0 0
    fout := { placeholder := 0, header := none, header_size := 0, data := [] }
    n_bytes_to_write := 0
    n_bytes_per_split := 0
    closed := [] }

/-- The constructor of the fixed-count policy. -/
def split_strategy_max_tensors (params : split_params) (f_input : ifstream)
    (ctx_gguf : gguf_context) (ctx_meta : List ggml_tensor) : split_strategy :=
  let st := split_strategy.init .max_tensors params f_input ctx_gguf ctx_meta
  { st with n_split := ceil_div st.n_tensors params.n_split_tensors.toNat }

/-- Two's complement value of an `int` expression. -/
def wrap_int (x : Int) : Int := (x + 2147483648) % 4294967296 - 2147483648

/-- Conversion of an `int` to `size_t`. -/
def to_size_t (x : Int) : Nat := (x % 18446744073709551616).toNat

/-- Value of a run of decimal digits. -/
def digits_value (ds : List Char) : Nat :=
  ds.foldl (fun acc c => 10 * acc + (c.toNat - 48)) 0

/-- The library call `std::stoi`: blanks, an optional sign and decimal digits;
no digits or a value outside `int` raise an exception. -/
def stoi (s : List Char) : Option Int :=
  let s1 := s.dropWhile Char.isWhitespace
  let neg := s1.head? == some '-'
  let s2 := if s1.head? == some '-' || s1.head? == some '+' then s1.drop 1 else s1
  let ds := s2.takeWhile Char.isDigit
  if ds.isEmpty then none
  else
    let v : Int := if neg then - (digits_value ds : Int) else (digits_value ds : Int)
    if -2147483648 ≤ v ∧ v ≤ 2147483647 then some v else none

/-- The byte cap computed by the constructor of the fixed-size policy from the
size string: the products are `int` products, converted to `size_t` afterwards. -/
def parse_split_size (split_size : String) : Except split_error Nat :=
  let cs := split_size.toList
  match stoi (cs.take (cs.length - 1)) with
  | none => .error .stoi_exception
  | some value =>
    match cs.getLast? with
    | some 'M' => .ok (to_size_t (wrap_int (wrap_int (value * 1024) * 1024)))
    | some 'G' => .ok (to_size_t (wrap_int (wrap_int (wrap_int (value * 1024) * 1024) * 1024)))
    | _ => .error .invalid_max_size

/-- The shard count of the fixed-size policy for a given byte cap. -/
def split_strategy_max_size.with_cap (params : split_params) (f_input : ifstream)
    (ctx_gguf : gguf_context) (ctx_meta : List ggml_tensor) (n_bytes_per_split : Nat) :
    split_strategy :=
  let st := split_strategy.init .max_size params f_input ctx_gguf ctx_meta
  { st with
    n_bytes_per_split := n_bytes_per_split
    n_split := min (ceil_div st.n_total_bytes n_bytes_per_split) st.n_tensors }

/-- The constructor of the fixed-size policy. -/
def split_strategy_max_size (params : split_params) (f_input : ifstream)
    (ctx_gguf : gguf_context) (ctx_meta : List ggml_tensor) : split_result split_strategy :=
  match parse_split_size params.split_size with
  | .error e => .error (e, [])
  | .ok cap => .ok (split_strategy_max_size.with_cap params f_input ctx_gguf ctx_meta cap)

/-- The virtual method `should_split`. -/
def should_split (st : split_strategy) : Bool :=
  match st.kind with
  | .max_tensors => Int.tmod (st.i_tensor : Int) st.params.n_split_tensors == 0
  | .max_size =>
    decide (st.n_bytes_written > (st.i_split_tensors_data + 1).toNat * st.n_bytes_per_split)

/-- The virtual method `include_tensor`; the fixed-size policy updates its
candidate accumulator and stops the program when the first candidate of a
shard does not fit. -/
def include_tensor (st : split_strategy) (idx : Nat) (t : ggml_tensor) :
    split_result (split_strategy × Bool) :=
  match st.kind with
  | .max_tensors =>
    .ok (st, decide ((idx : Int) < (st.i_split_tensors_data + 1) * st.params.n_split_tensors))
  | .max_size =>
    let n_bytes := ggml_nbytes t
    let max_bytes_to_write := (st.i_split_tensors_data + 1).toNat * st.n_bytes_per_split
    let incl := decide (st.n_bytes_to_write + n_bytes ≤ max_bytes_to_write)
    if !incl && idx == st.i_tensor then
      .error (.size_too_small idx (st.n_bytes_to_write + n_bytes) max_bytes_to_write, st.closed)
    else
      .ok ({ st with n_bytes_to_write := st.n_bytes_to_write + n_bytes }, incl)

/-- The loop of `split_start` that adds the descriptors of the tensors of the
shard, from index `i` on; `fuel` bounds the number of remaining tensors. -/
def split_start_populate (fuel i : Nat) (st : split_strategy) : split_result split_strategy :=
  match fuel with
  | 0 => .ok st
  | fuel + 1 =>
    if i < st.n_tensors then
      match ggml_get_tensor st.ctx_meta (gguf_get_tensor_name st.ctx_gguf i) with
      | none => .error (.null_tensor, st.closed)
      | some t =>
        match include_tensor st i t with
        | .error e => .error e
        | .ok (st1, incl) =>
          if incl then
            split_start_populate fuel (i + 1) { st1 with ctx_out := gguf_add_tensor st1.ctx_out t }
          else .ok st1
    else .ok st

section engine

variable (gguf_get_meta_size : gguf_context → Nat)

/-- The method `split_strategy::split_start`: builds the metadata of the next
shard, opens its file and reserves the header. -/
def split_strategy.split_start (st : split_strategy) : split_result split_strategy :=
  let ctx_out := gguf_init_empty
  let ctx_out := if st.i_split == 0 then gguf_set_kv ctx_out st.ctx_gguf else ctx_out
  let ctx_out := gguf_set_val_u16 ctx_out LLM_KV_SPLIT_NO st.i_split
  let ctx_out := gguf_set_val_u16 ctx_out LLM_KV_SPLIT_COUNT st.n_split
  let ctx_out := gguf_set_val_i32 ctx_out LLM_KV_SPLIT_TENSORS_COUNT st.n_tensors
  let st1 : split_strategy :=
    { st with
      ctx_out := ctx_out
      i_split_tensors_data :=
        if st.params.no_tensors_in_metadata then (st.i_split : Int) - 1 else st.i_split }
  let populated : split_result split_strategy :=
    if !st.params.no_tensors_in_metadata || decide (st.i_split > 0) then
      split_start_populate (st1.n_tensors - st1.i_tensor) st1.i_tensor st1
    else .ok st1
  match populated with
  | .error e => .error e
  | .ok st2 =>
    let meta_size := gguf_get_meta_size st2.ctx_out
    .ok { st2 with
          fout_path := llama_split_path st2.params.output st2.i_split st2.n_split
          fout := { placeholder := meta_size, header := none, header_size := 0, data := [] }
          i_split := st2.i_split + 1 }

/-- The virtual method `split_start`; the fixed-size policy first clears its
candidate accumulator. -/
def split_start (st : split_strategy) : split_result split_strategy :=
  match st.kind with
  | .max_tensors => split_strategy.split_start gguf_get_meta_size st
  | .max_size => split_strategy.split_start gguf_get_meta_size { st with n_bytes_to_write := 0 }

/-- The method `next_tensor`: copies the bytes of the current tensor from the
input to the open shard and pads them. -/
def next_tensor (st : split_strategy) : split_result split_strategy :=
  match ggml_get_tensor st.ctx_meta (gguf_get_tensor_name st.ctx_gguf st.i_tensor) with
  | none => .error (.null_tensor, st.closed)
  | some t =>
    let n_bytes := ggml_nbytes t
    let read_data := resize_read_data st.read_data n_bytes
    let offset := gguf_get_tensor_offset st.ctx_gguf st.i_tensor
    let f_input := st.f_input.seekg offset
    let got := f_input.read read_data n_bytes
    let out := st.fout.data ++ got.2.take n_bytes
    let out := zeros out (GGML_PAD n_bytes GGUF_DEFAULT_ALIGNMENT - n_bytes)
    .ok { st with
          f_input := got.1
          read_data := got.2
          fout := { st.fout with data := out }
          i_tensor := st.i_tensor + 1
          n_bytes_written := st.n_bytes_written + n_bytes }

/-- The method `split_end`: writes the metadata over the reserved bytes and
closes the shard. -/
def split_end (st : split_strategy) : split_strategy :=
  let file : gguf_file :=
    { st.fout with header := some st.ctx_out, header_size := gguf_get_meta_size st.ctx_out }
  { st with fout := file, closed := st.closed ++ [(st.fout_path, file)] }

/-- The `while` loop of `gguf_split`; every round writes one tensor, so
`fuel` counts the tensors that remain. -/
def split_loop (fuel : Nat) (st : split_strategy) : split_result split_strategy :=
  match fuel with
  | 0 => if st.i_tensor < st.n_tensors then .error (.out_of_fuel, st.closed) else .ok st
  | fuel + 1 =>
    if st.i_tensor < st.n_tensors then
      match next_tensor st with
      | .error e => .error e
      | .ok st1 =>
        if decide (st1.i_tensor < st1.n_tensors) && should_split st1 then
          match split_start gguf_get_meta_size (split_end gguf_get_meta_size st1) with
          | .error e => .error e
          | .ok st2 => split_loop fuel st2
        else split_loop fuel st1
    else .ok st

/-- The part of `gguf_split` that follows the choice of the policy. -/
def gguf_split_run (no_tensors_in_metadata : Bool) (strategy : split_strategy) :
    split_result split_strategy :=
  let strategy :=
    if no_tensors_in_metadata then { strategy with n_split := strategy.n_split + 1 } else strategy
  match split_start gguf_get_meta_size strategy with
  | .error e => .error e
  | .ok st =>
    let started :=
      if no_tensors_in_metadata then
        split_start gguf_get_meta_size (split_end gguf_get_meta_size st)
      else .ok st
    match started with
    | .error e => .error e
    | .ok st1 =>
      match split_loop gguf_get_meta_size (st1.n_tensors - st1.i_tensor) st1 with
      | .error e => .error e
      | .ok st2 => .ok (split_end gguf_get_meta_size st2)

/-- The function `gguf_split`; `input` is the file found at `params.input`. -/
def gguf_split (params : split_params) (input : Option gguf_file) :
    split_result split_strategy :=
  match input with
  | none => .error (.open_failed, [])
  | some file =>
    match gguf_init_from_file (some file) with
    | none => .error (.load_failed, [])
    | some (ctx_gguf, ctx_meta) =>
      let f_input := ifstream.open file
      let chosen : split_result split_strategy :=
        if !params.split_size.isEmpty then
          split_strategy_max_size params f_input ctx_gguf ctx_meta
        else if params.n_split_tensors > 0 then
          .ok (split_strategy_max_tensors params f_input ctx_gguf ctx_meta)
        else .error (.usage, [])
      match chosen with
      | .error e => .error e
      | .ok strategy => gguf_split_run gguf_get_meta_size params.no_tensors_in_metadata strategy

/-! ## Merge -/

/-- The local variables of `gguf_merge`. -/
structure merge_state where
  n_split : Nat
  total_tensors : Nat
  ctx_out : gguf_context
  fout : gguf_file
  read_data : List Nat
  ctx_metas : List (List ggml_tensor)
  ctx_ggufs : List gguf_context
  shard_prefix : String
  deriving DecidableEq, Repr

/-- The inner loop of the first pass: adds the descriptors of one shard, in
order, to the merged metadata. -/
def merge_add_tensors (ctx_meta : List ggml_tensor) (infos : List gguf_tensor_info)
    (ctx_out : gguf_context) : Except split_error gguf_context :=
  match infos with
  | [] => .ok ctx_out
  | info :: rest =>
    match ggml_get_tensor ctx_meta info.t.name with
    | none => .error .null_tensor
    | some t => merge_add_tensors ctx_meta rest (gguf_add_tensor ctx_out t)

/-- One round of the first pass of `gguf_merge`: reads the metadata of shard
`i_split`; shard 0 also yields the shard count, the name template and the
key/value pairs of the output. -/
def merge_read_metadata (fs : List (split_path × gguf_file)) (input : split_path)
    (i_split : Nat) (st : merge_state) : Except split_error merge_state :=
  let path := if i_split > 0 then llama_split_path st.shard_prefix i_split st.n_split else input
  match gguf_init_from_file (fs_open fs path) with
  | none => .error .load_failed
  | some (ctx_gguf, ctx_meta) =>
    let first : Except split_error (merge_state × gguf_context) :=
      if i_split == 0 then
        match gguf_find_key ctx_gguf LLM_KV_SPLIT_COUNT with
        | none => .error .no_split_count
        | some key_n_split =>
          match gguf_get_val_u16 ctx_gguf key_n_split with
          | none => .error .type_assert
          | some n_split =>
            if n_split < 1 then .error (.invalid_split_count n_split)
            else
              match llama_split_prefix path i_split n_split with
              | none => .error .unexpected_file_name
              | some template =>
                let ctx_gguf := gguf_set_val_u16 ctx_gguf LLM_KV_SPLIT_COUNT 0
                .ok ({ st with
                       n_split := n_split
                       shard_prefix := template
                       ctx_out := gguf_set_kv st.ctx_out ctx_gguf }, ctx_gguf)
      else .ok (st, ctx_gguf)
    match first with
    | .error e => .error e
    | .ok (st1, ctx_gguf) =>
      match merge_add_tensors ctx_meta ctx_gguf.infos st1.ctx_out with
      | .error e => .error e
      | .ok ctx_out =>
        .ok { st1 with
              ctx_out := ctx_out
              ctx_ggufs := st1.ctx_ggufs ++ [ctx_gguf]
              ctx_metas := st1.ctx_metas ++ [ctx_meta]
              total_tensors := st1.total_tensors + gguf_get_n_tensors ctx_gguf }

/-- The first pass of `gguf_merge` from shard `i_split` on. -/
def merge_first_pass (fs : List (split_path × gguf_file)) (input : split_path)
    (fuel i_split : Nat) (st : merge_state) : Except split_error merge_state :=
  match fuel with
  | 0 => if i_split < st.n_split then .error .out_of_fuel else .ok st
  | fuel + 1 =>
    if i_split < st.n_split then
      match merge_read_metadata fs input i_split st with
      | .error e => .error e
      | .ok st1 => merge_first_pass fs input fuel (i_split + 1) st1
    else .ok st

/-- The inner loop of the second pass: copies the bytes of the tensors of one
shard, with their padding, to the output. -/
def merge_write_tensors (ctx_meta : List ggml_tensor) (infos : List gguf_tensor_info)
    (f_input : ifstream) (read_data out : List Nat) :
    Except split_error (ifstream × List Nat × List Nat) :=
  match infos with
  | [] => .ok (f_input, read_data, out)
  | info :: rest =>
    match ggml_get_tensor ctx_meta info.t.name with
    | none => .error .null_tensor
    | some t =>
      let n_bytes := ggml_nbytes t
      let read_data := resize_read_data read_data n_bytes
      let f_input := f_input.seekg info.offset
      let got := f_input.read read_data n_bytes
      let out := out ++ got.2.take n_bytes
      let out := zeros out (GGML_PAD n_bytes GGUF_DEFAULT_ALIGNMENT - n_bytes)
      merge_write_tensors ctx_meta rest got.1 got.2 out

/-- The second pass of `gguf_merge` from shard `i_split` on. -/
def merge_second_pass (fs : List (split_path × gguf_file)) (fuel i_split : Nat)
    (st : merge_state) : Except split_error merge_state :=
  match fuel with
  | 0 => if i_split < st.n_split then .error .out_of_fuel else .ok st
  | fuel + 1 =>
    if i_split < st.n_split then
      match fs_open fs (llama_split_path st.shard_prefix i_split st.n_split) with
      | none => .error .open_failed
      | some file =>
        match st.ctx_ggufs.get? i_split, st.ctx_metas.get? i_split with
        | some ctx_gguf, some ctx_meta =>
          match merge_write_tensors ctx_meta ctx_gguf.infos (ifstream.open file)
              st.read_data st.fout.data with
          | .error e => .error e
          | .ok (_, read_data, out) =>
            merge_second_pass fs fuel (i_split + 1)
              { st with read_data := read_data, fout := { st.fout with data := out } }
        | _, _ => .error .null_tensor
    else .ok st

/-- The function `gguf_merge`: `fs` holds the files on disk and `input` is the
name of the first shard; the result is the file written to `params.output`. -/
def gguf_merge (fs : List (split_path × gguf_file)) (input : split_path) :
    Except split_error gguf_file :=
  let st0 : merge_state :=
    { n_split := 1
      total_tensors := 0
      ctx_out := gguf_init_empty
      fout := { placeholder := 0, header := none, header_size := 0, data := [] }
      read_data := []
      ctx_metas := []
      ctx_ggufs := []
      shard_prefix := "" }
  match merge_read_metadata fs input 0 st0 with
  | .error e => .error e
  | .ok st1 =>
    match merge_first_pass fs input (st1.n_split - 1) 1 st1 with
    | .error e => .error e
    | .ok st2 =>
      let st3 : merge_state :=
        { st2 with fout := { st2.fout with placeholder := gguf_get_meta_size st2.ctx_out } }
      match merge_second_pass fs st3.n_split 0 st3 with
      | .error e => .error e
      | .ok st4 =>
        .ok { st4.fout with
              header := some st4.ctx_out
              header_size := gguf_get_meta_size st4.ctx_out }

end engine

/-! ## Reference descriptions used in the statements -/

/-- The bytes of a tensor inside a data region. -/
def tensor_data (data : List Nat) (info : gguf_tensor_info) : List Nat :=
  (data.drop info.offset).take (ggml_nbytes info.t)

/-- The bytes of a tensor followed by its alignment padding. -/
def padded_tensor (data : List Nat) (info : gguf_tensor_info) : List Nat :=
  tensor_data data info ++
    List.replicate
      (GGML_PAD (ggml_nbytes info.t) GGUF_DEFAULT_ALIGNMENT - ggml_nbytes info.t) 0

/-- The padded bytes of a run of tensors, one after the other. -/
def payload (data : List Nat) (infos : List gguf_tensor_info) : List Nat :=
  (infos.map (padded_tensor data)).flatten

/-- Every tensor lies inside the data region. -/
def data_in_bounds (ctx : gguf_context) (data : List Nat) : Prop :=
  ∀ info ∈ ctx.infos, info.offset + ggml_nbytes info.t ≤ data.length

instance (ctx : gguf_context) (data : List Nat) : Decidable (data_in_bounds ctx data) :=
  inferInstanceAs (Decidable (∀ info ∈ ctx.infos, info.offset + ggml_nbytes info.t ≤ data.length))

/-- The tensor names of an archive are pairwise different. -/
def unique_names (ctx : gguf_context) : Prop :=
  (ctx.infos.map (fun info => info.t.name)).Nodup

instance (ctx : gguf_context) : Decidable (unique_names ctx) :=
  inferInstanceAs
    (Decidable (ctx.infos.map (fun (info : gguf_tensor_info) => info.t.name)).Nodup)

/-- The key/value pairs that `split_start` gives to shard `i_split`. -/
def shard_kv (ctx_gguf : gguf_context) (i_split n_split n_tensors : Nat) : gguf_context :=
  gguf_set_val_i32
    (gguf_set_val_u16
      (gguf_set_val_u16
        (if i_split == 0 then gguf_set_kv gguf_init_empty ctx_gguf else gguf_init_empty)
        LLM_KV_SPLIT_NO i_split)
      LLM_KV_SPLIT_COUNT n_split)
    LLM_KV_SPLIT_TENSORS_COUNT n_tensors

/-- The metadata of a shard that lists the given tensors. -/
def shard_header (ctx_gguf : gguf_context) (i_split n_split : Nat)
    (infos : List gguf_tensor_info) : gguf_context :=
  (infos.map (fun info => info.t)).foldl gguf_add_tensor
    (shard_kv ctx_gguf i_split n_split ctx_gguf.infos.length)

/-- The tensors of the `k`-th group of `c` consecutive tensors. -/
def tensor_group (ctx_gguf : gguf_context) (c k : Nat) : List gguf_tensor_info :=
  (ctx_gguf.infos.drop (k * c)).take c

/-- The planner state holds the metadata of the archive and reads from its data
region. -/
structure Loaded (st : split_strategy) (ctx : gguf_context) (data : List Nat) : Prop where
  ctx_gguf : st.ctx_gguf = ctx
  ctx_meta : st.ctx_meta = ctx.infos.map (fun info => info.t)
  n_tensors : st.n_tensors = ctx.infos.length
  in_data : st.f_input.data = data
  ok : st.f_input.failbit = false

/-- The shard file that the fixed-count policy writes for group `k`. -/
def fixed_count_shard (msz : gguf_context → Nat) (P : split_params) (ctx : gguf_context)
    (data : List Nat) (N off c k : Nat) : split_path × gguf_file :=
  (llama_split_path P.output (k + off) N,
   { placeholder := msz (shard_header ctx (k + off) N (tensor_group ctx c k))
     header := some (shard_header ctx (k + off) N (tensor_group ctx c k))
     header_size := msz (shard_header ctx (k + off) N (tensor_group ctx c k))
     data := payload data (tensor_group ctx c k) })

/-- The planner state of the fixed-count policy while group `k` is open and
`i` tensors have been written. -/
def fixed_count_state (msz : gguf_context → Nat) (P : split_params) (ctx : gguf_context)
    (data : List Nat) (N off c : Nat) (pre : List (split_path × gguf_file))
    (k i : Nat) (f : ifstream) (rd : List Nat) (nbw : Nat) : split_strategy :=
  { kind := .max_tensors
    params := P
    f_input := f
    ctx_gguf := ctx
    ctx_meta := ctx.infos.map (fun info => info.t)
    n_tensors := ctx.infos.length
    n_split := N
    i_split := k + off + 1
    i_split_tensors_data := (k : Int)
    i_tensor := i
    n_bytes_written := nbw
    n_total_bytes := ((ctx.infos.map (fun info => info.t)).map ggml_nbytes).sum
    read_data := rd
    ctx_out := shard_header ctx (k + off) N (tensor_group ctx c k)
    fout_path := llama_split_path P.output (k + off) N
    fout := { placeholder := msz (shard_header ctx (k + off) N (tensor_group ctx c k))
              header := none
              header_size := 0
              data := payload data ((ctx.infos.drop (k * c)).take (i - k * c)) }
    n_bytes_to_write := 0
    n_bytes_per_split := 0
    closed := pre ++ (List.range k).map (fixed_count_shard msz P ctx data N off c) }

/-- The leading shard that carries the metadata and no tensor. -/
def metadata_shard (msz : gguf_context → Nat) (P : split_params) (ctx : gguf_context)
    (N : Nat) : split_path × gguf_file :=
  (llama_split_path P.output 0 N,
   { placeholder := msz (shard_header ctx 0 N [])
     header := some (shard_header ctx 0 N [])
     header_size := msz (shard_header ctx 0 N [])
     data := [] })

/-- The shard files that the fixed-count policy writes for `m` groups. -/
def fixed_count_shards (msz : gguf_context → Nat) (P : split_params) (ctx : gguf_context)
    (data : List Nat) (c m : Nat) : List (split_path × gguf_file) :=
  if P.no_tensors_in_metadata then
    metadata_shard msz P ctx (ceil_div ctx.infos.length c + 1) ::
      (List.range m).map
        (fixed_count_shard msz P ctx data (ceil_div ctx.infos.length c + 1) 1 c)
  else
    (List.range m).map (fixed_count_shard msz P ctx data (ceil_div ctx.infos.length c) 0 c)

/-! ## Example archives -/

/-- A header size for the examples: 32 bytes for the fixed part and for every
key/value pair and tensor descriptor. -/
def example_meta_size (ctx : gguf_context) : Nat :=
  32 * (1 + ctx.kv.length + ctx.infos.length)

/-- The descriptor of an example tensor of `n` bytes stored at `offset`. -/
def example_info (name : String) (n offset : Nat) : gguf_tensor_info :=
  { t := { name := name, ttype := 24, ne := [n], nbytes := n }, offset := offset }

/-- An archive whose tensors have the given names and sizes; tensor `i` is
filled with the byte `i + 1` and padded to the alignment. -/
def example_archive (tensors : List (String × Nat)) : gguf_file :=
  let ctx := (tensors.map (fun p => ({ name := p.1, ttype := 24, ne := [p.2], nbytes := p.2 }
    : ggml_tensor))).foldl gguf_add_tensor
      { kv := [("general.architecture", .str "llama"), ("general.alignment", .arr [32, 0, 0, 0])]
        infos := [] }
  { placeholder := example_meta_size ctx
    header := some ctx
    header_size := example_meta_size ctx
    data := ((List.range tensors.length).zip tensors).flatMap (fun p =>
      List.replicate p.2.2 (p.1 + 1) ++
        List.replicate (GGML_PAD p.2.2 GGUF_DEFAULT_ALIGNMENT - p.2.2) 0) }

/-- The metadata of an example archive. -/
def example_ctx (tensors : List (String × Nat)) : gguf_context :=
  match (example_archive tensors).header with
  | some ctx => ctx
  | none => gguf_init_empty

/-- Ten tensors of 100 bytes each. -/
def ten_tensors : List (String × Nat) :=
  [("t0", 100), ("t1", 100), ("t2", 100), ("t3", 100), ("t4", 100),
   ("t5", 100), ("t6", 100), ("t7", 100), ("t8", 100), ("t9", 100)]

/-- Parameters of a split run of the examples. -/
def example_params (n_split_tensors : Int) (no_tensors_in_metadata : Bool)
    (split_size : String) : split_params :=
  { n_split_tensors := n_split_tensors
    no_tensors_in_metadata := no_tensors_in_metadata
    split_size := split_size
    input := "model.gguf"
    output := "model" }

/-- The tensor names listed in the headers of the shards, shard by shard. -/
def header_names (shards : List (split_path × gguf_file)) : List (List String) :=
  shards.map (fun s =>
    match s.2.header with
    | some ctx => ctx.infos.map (fun info => info.t.name)
    | none => [])

/-- The number of bytes that follow the header of each shard. -/
def data_lengths (shards : List (split_path × gguf_file)) : List Nat :=
  shards.map (fun s => s.2.data.length)

/-- The shard files written by a run that completed. -/
def shards_of (r : split_result split_strategy) : Option (List (split_path × gguf_file)) :=
  match r with
  | .ok st => some st.closed
  | .error _ => none

/-- The function `gguf_split` under the fixed-size policy for a byte cap that
has already been parsed from the size string. -/
def gguf_split_max_size (gguf_get_meta_size : gguf_context → Nat) (params : split_params)
    (input : gguf_file) (n_bytes_per_split : Nat) : split_result split_strategy :=
  match gguf_init_from_file (some input) with
  | none => .error (.load_failed, [])
  | some (ctx_gguf, ctx_meta) =>
    gguf_split_run gguf_get_meta_size params.no_tensors_in_metadata
      (split_strategy_max_size.with_cap params (ifstream.open input) ctx_gguf ctx_meta
        n_bytes_per_split)

/-- The shard count computed by a run that completed. -/
def split_count_of (r : split_result split_strategy) : Option Nat :=
  match r with
  | .ok st => some st.n_split
  | .error _ => none

/-- The number of tensors and of tensor bytes that `next_tensor` has streamed in
a run that completed. -/
def streamed_of (r : split_result split_strategy) : Option (Nat × Nat) :=
  match r with
  | .ok st => some (st.i_tensor, st.n_bytes_written)
  | .error _ => none

/-- The error of a run that stopped, with the number of shards finalised before. -/
def error_of (r : split_result split_strategy) : Option (split_error × Nat) :=
  match r with
  | .ok _ => none
  | .error e => some (e.1, e.2.length)

/-- The sizes on disk of the shard files. -/
def file_sizes (shards : List (split_path × gguf_file)) : List Nat :=
  shards.map (fun s => s.2.size)

/-- The size that the header of each shard announces: the serialised metadata plus
the padded sizes of the tensors it lists. -/
def announced_sizes (gguf_get_meta_size : gguf_context → Nat)
    (shards : List (split_path × gguf_file)) : List Nat :=
  shards.map (fun s =>
    match s.2.header with
    | some ctx =>
      gguf_get_meta_size ctx +
        (ctx.infos.map (fun info =>
          GGML_PAD (ggml_nbytes info.t) GGUF_DEFAULT_ALIGNMENT)).sum
    | none => 0)

/-- Three tensors of 800 KiB each. -/
def three_tensors : List (String × Nat) :=
  [("t0", 819200), ("t1", 819200), ("t2", 819200)]

/-- The same three tensors at one 4096th of the size. -/
def three_small_tensors : List (String × Nat) :=
  [("t0", 200), ("t1", 200), ("t2", 200)]

/-- The byte cap of a fixed-size planner that was constructed. -/
def bytes_per_split_of (r : split_result split_strategy) : Option Nat :=
  match r with
  | .ok st => some st.n_bytes_per_split
  | .error _ => none

/-- A small tensor followed by one of 1200 KiB. -/
def small_and_large_tensor : List (String × Nat) :=
  [("t0", 409600), ("t1", 1228800)]

/-- A single tensor of 1200 KiB. -/
def large_tensor : List (String × Nat) :=
  [("t0", 1228800)]

/-- The three split keys as a shard with index `j` records them: the index and
the count as `uint16`, the tensor total as `int32`. -/
def shard_keys (hd : gguf_context) (j n_split n_tensors : Nat) : Prop :=
  gguf_get_val hd LLM_KV_SPLIT_NO = some (.u16 (j % 65536)) ∧
  gguf_get_val hd LLM_KV_SPLIT_COUNT = some (.u16 (n_split % 65536)) ∧
  gguf_get_val hd LLM_KV_SPLIT_TENSORS_COUNT = some (.i32 n_tensors)

instance (hd : gguf_context) (j n_split n_tensors : Nat) :
    Decidable (shard_keys hd j n_split n_tensors) :=
  inferInstanceAs (Decidable (_ ∧ _ ∧ _))

/-- The unpadded byte size of a run of tensors. -/
def bytes_of (infos : List gguf_tensor_info) : Nat :=
  (infos.map (fun info => ggml_nbytes info.t)).sum

/-- Invariant of the fixed-size run while a shard is open: `done` are the groups of
tensors streamed into the shards closed so far and `cur` the tensors streamed into the
open shard. -/
structure SizeInv (ctx : gguf_context) (data : List Nat) (cap off : Nat)
    (st : split_strategy) (done : List (List gguf_tensor_info))
    (cur : List gguf_tensor_info) : Prop where
  loaded : Loaded st ctx data
  kind : st.kind = .max_size
  cap_eq : st.n_bytes_per_split = cap
  offset : off = if st.params.no_tensors_in_metadata then 1 else 0
  i_split : st.i_split = done.length + off + 1
  index : st.i_split_tensors_data = (done.length : Int)
  streamed : done.flatten ++ cur = ctx.infos.take st.i_tensor
  le : st.i_tensor ≤ ctx.infos.length
  out : st.fout.data = payload data cur
  closed_len : st.closed.length = off + done.length
  closed : (st.closed.drop off).map (fun s => s.2.data) = done.map (payload data)
  lead : ∀ s ∈ st.closed.take off, s.2.data = []
  written : st.n_bytes_written = bytes_of (ctx.infos.take st.i_tensor)
  low : done.length * cap ≤ bytes_of done.flatten
  groups : ∀ g ∈ done, bytes_of g.dropLast ≤ cap
  cur_le : st.i_tensor < ctx.infos.length → bytes_of cur ≤ cap
  cur_drop : bytes_of cur.dropLast ≤ cap

/-- The unpadded byte sizes of the tensors that the header of each shard lists, summed
shard by shard. -/
def header_bytes (shards : List (split_path × gguf_file)) : List Nat :=
  shards.map (fun s =>
    match s.2.header with
    | some ctx => bytes_of ctx.infos
    | none => 0)

/-- The descriptors that `gguf_add_tensor` gives to a run of tensors added one after
the other, the first one at `offset`. -/
def tensor_layout : List ggml_tensor → Nat → List gguf_tensor_info
  | [], _ => []
  | t :: ts, offset =>
    { t := t, offset := offset } ::
      tensor_layout ts (offset + GGML_PAD (ggml_nbytes t) GGUF_DEFAULT_ALIGNMENT)

/-- The padded byte size of a run of tensors. -/
def padded_size (infos : List gguf_tensor_info) : Nat :=
  (infos.map (fun info => GGML_PAD (ggml_nbytes info.t) GGUF_DEFAULT_ALIGNMENT)).sum

/-- The offset that `gguf_add_tensor` gives to the next tensor. -/
def next_offset (infos : List gguf_tensor_info) : Nat :=
  match infos.getLast? with
  | some last => last.offset + GGML_PAD (ggml_nbytes last.t) GGUF_DEFAULT_ALIGNMENT
  | none => 0

/-- The shard file number `j` of `N` that lists and holds the tensors `g`. -/
def group_shard (msz : gguf_context → Nat) (output : String) (ctx : gguf_context)
    (data : List Nat) (N j : Nat) (g : List gguf_tensor_info) : split_path × gguf_file :=
  (llama_split_path output j N,
   { placeholder := msz (shard_header ctx j N g)
     header := some (shard_header ctx j N g)
     header_size := msz (shard_header ctx j N g)
     data := payload data g })

/-- The shard files number `j`, `j + 1`, ... of `N` for consecutive groups of tensors. -/
def shard_set (msz : gguf_context → Nat) (output : String) (ctx : gguf_context)
    (data : List Nat) (N : Nat) : Nat → List (List gguf_tensor_info) →
    List (split_path × gguf_file)
  | _, [] => []
  | j, g :: gs => group_shard msz output ctx data N j g :: shard_set msz output ctx data N (j + 1) gs

/-- The groups of tensors of the shards of the fixed-count policy. -/
def fixed_count_groups (P : split_params) (ctx : gguf_context) (c m : Nat) :
    List (List gguf_tensor_info) :=
  (if P.no_tensors_in_metadata then [[]] else []) ++ (List.range m).map (tensor_group ctx c)

/-- The command `--merge` applied to the first shard of the files that a split run
wrote under the name template `output`. -/
def merge_after_split (gguf_get_meta_size : gguf_context → Nat)
    (r : split_result split_strategy) (output : String) : Except split_error gguf_file :=
  match r with
  | .error e => .error e.1
  | .ok st => gguf_merge gguf_get_meta_size st.closed (llama_split_path output 0 st.n_split)

/-- The tensor names in the header of a merged file. -/
def merged_names (r : Except split_error gguf_file) : Option (List String) :=
  match r with
  | .ok f =>
    match f.header with
    | some hd => some (hd.infos.map (fun info => info.t.name))
    | none => none
  | .error _ => none

/-- The error of a merge that stopped. -/
def merge_error_of (r : Except split_error gguf_file) : Option split_error :=
  match r with
  | .ok _ => none
  | .error e => some e

/-- Invariant of the first pass of `gguf_merge` after the metadata of `i` shards has
been read: `K` are the key/value pairs taken from the first shard and `gs` the groups
of tensors of the shards. -/
structure MergeInv (output : String) (gs : List (List gguf_tensor_info)) (K : gguf_context)
    (st : merge_state) (i : Nat) : Prop where
  n_split : st.n_split = gs.length
  shard_prefix : st.shard_prefix = output
  ctx_out : st.ctx_out
    = (((gs.take i).flatten).map (fun info => info.t)).foldl gguf_add_tensor K
  ctx_ggufs : st.ctx_ggufs.map (fun c => c.infos)
    = (gs.take i).map (fun g => tensor_layout (g.map (fun info => info.t)) 0)
  ctx_metas : st.ctx_metas = (gs.take i).map (fun g => g.map (fun info => info.t))

/-- Two tensors of 100 bytes each. -/
def two_tensors : List (String × Nat) :=
  [("t0", 100), ("t1", 100)]

/-- A file cut after the first `n` bytes of its data region; the header is intact. -/
def truncate_data (f : gguf_file) (n : Nat) : gguf_file :=
  { f with data := f.data.take n }

/-- The archive of `two_tensors` cut after 168 bytes of data: the 128 padded bytes of
`t0` and the first 40 of the 100 bytes of `t1`. -/
def truncated_archive : gguf_file :=
  truncate_data (example_archive two_tensors) 168

/-- The single shard that a split of the intact archive of `two_tensors` writes, cut
after 168 bytes of data. -/
def truncated_shards : List (split_path × gguf_file) :=
  match shards_of (gguf_split example_meta_size (example_params 128 false "")
      (some (example_archive two_tensors))) with
  | some shards => shards.map (fun s => (s.1, truncate_data s.2 168))
  | none => []

/-- The bytes that follow the header of a merged file. -/
def merged_data (r : Except split_error gguf_file) : Option (List Nat) :=
  match r with
  | .ok f => some f.data
  | .error _ => none

/-! ## Basic facts -/

theorem find_by_name (l : List ggml_tensor) (h : (l.map (fun t => t.name)).Nodup)
    (i : Nat) (hi : i < l.length) :
    l.find? (fun t => t.name == l[i].name) = some l[i] := by
  induction l generalizing i with
  | nil => simp at hi
  | cons a l ih =>
    cases i with
    | zero => simp
    | succ j =>
      have hj : j < l.length := by simpa using hi
      simp only [List.map_cons, List.nodup_cons] at h
      have hne : a.name ≠ (l[j]).name := by
        intro heq
        apply h.1
        rw [heq]
        exact List.mem_map_of_mem _ (List.getElem_mem hj)
      simp only [List.getElem_cons_succ, List.find?_cons]
      have : (a.name == l[j].name) = false := by simpa using hne
      rw [this]
      exact ih h.2 j hj

theorem get_tensor_at (ctx : gguf_context) (h : unique_names ctx) (i : Nat)
    (hi : i < ctx.infos.length) :
    ggml_get_tensor (ctx.infos.map (fun info => info.t)) (gguf_get_tensor_name ctx i)
      = some (ctx.infos[i]).t := by
  unfold ggml_get_tensor gguf_get_tensor_name
  have hl : i < (ctx.infos.map (fun info => info.t)).length := by simpa using hi
  have hn : ((ctx.infos.map (fun info => info.t)).map (fun t => t.name)).Nodup := by
    simpa [unique_names, List.map_map, Function.comp_def] using h
  have := find_by_name _ hn i hl
  simp only [List.getElem_map] at this
  rw [List.get?_eq_getElem?, List.getElem?_eq_getElem hi]
  exact this

theorem read_in_bounds (f : ifstream) (buf : List Nat) (off n : Nat)
    (hf : f.failbit = false) (hb : off + n ≤ f.data.length) :
    ((f.seekg off).read buf n).1.failbit = false ∧
    ((f.seekg off).read buf n).1.data = f.data ∧
    ((f.seekg off).read buf n).2.take n = (f.data.drop off).take n := by
  have hlen : ((f.data.drop off).take n).length = n := by
    simp [List.length_take, List.length_drop]; omega
  simp only [ifstream.seekg, hf, ifstream.read, Bool.false_eq_true, if_false, hlen,
    lt_irrefl]
  refine ⟨trivial, trivial, ?_⟩
  rw [List.take_append_of_le_length (by omega)]
  rw [List.take_of_length_le (by omega)]

theorem next_tensor_ok (st : split_strategy) (ctx : gguf_context) (data : List Nat)
    (hl : Loaded st ctx data) (hu : unique_names ctx) (hb : data_in_bounds ctx data)
    (hi : st.i_tensor < ctx.infos.length) :
    ∃ f rd, f.data = data ∧ f.failbit = false ∧
      next_tensor st = .ok { st with
        f_input := f
        read_data := rd
        fout := { st.fout with data := st.fout.data ++ padded_tensor data ctx.infos[st.i_tensor] }
        i_tensor := st.i_tensor + 1
        n_bytes_written := st.n_bytes_written + ggml_nbytes (ctx.infos[st.i_tensor]).t } := by
  have hget := get_tensor_at ctx hu st.i_tensor hi
  have hoff : gguf_get_tensor_offset ctx st.i_tensor = (ctx.infos[st.i_tensor]).offset := by
    simp [gguf_get_tensor_offset, List.get?_eq_getElem?, List.getElem?_eq_getElem hi]
  have hin := hb _ (List.getElem_mem hi)
  obtain ⟨h1, h2, h3⟩ := read_in_bounds st.f_input
    (resize_read_data st.read_data (ggml_nbytes (ctx.infos[st.i_tensor]).t))
    (ctx.infos[st.i_tensor]).offset (ggml_nbytes (ctx.infos[st.i_tensor]).t) hl.ok
    (by rw [hl.in_data]; exact hin)
  refine ⟨((st.f_input.seekg (ctx.infos[st.i_tensor]).offset).read
    (resize_read_data st.read_data (ggml_nbytes (ctx.infos[st.i_tensor]).t))
    (ggml_nbytes (ctx.infos[st.i_tensor]).t)).1, ((st.f_input.seekg (ctx.infos[st.i_tensor]).offset).read
    (resize_read_data st.read_data (ggml_nbytes (ctx.infos[st.i_tensor]).t))
    (ggml_nbytes (ctx.infos[st.i_tensor]).t)).2, ?_, h1, ?_⟩
  · rw [h2, hl.in_data]
  · unfold next_tensor
    rw [hl.ctx_meta, hl.ctx_gguf, hget]
    simp only [hoff, zeros, padded_tensor, tensor_data, h3, hl.in_data, List.append_assoc]

theorem payload_snoc (data : List Nat) (l : List gguf_tensor_info) (a n : Nat)
    (h : a + n < l.length) :
    payload data ((l.drop a).take n) ++ padded_tensor data l[a + n]
      = payload data ((l.drop a).take (n + 1)) := by
  unfold payload
  rw [List.take_succ]
  have : (l.drop a)[n]? = some l[a + n] := by
    rw [List.getElem?_drop, List.getElem?_eq_getElem h]
  simp [this]

theorem include_max_tensors (st : split_strategy) (idx : Nat) (t : ggml_tensor) (c k : Nat)
    (hk : st.kind = .max_tensors) (hc : st.params.n_split_tensors = c)
    (hd : st.i_split_tensors_data = k) :
    include_tensor st idx t = .ok (st, decide (idx < (k + 1) * c)) := by
  unfold include_tensor
  rw [hk]
  simp only [hc, hd]
  congr 2
  simp only [decide_eq_decide]
  norm_cast

theorem populate_max_tensors (fuel : Nat) : ∀ (i : Nat) (st : split_strategy)
    (ctx : gguf_context) (c k : Nat),
    st.kind = .max_tensors → st.ctx_gguf = ctx →
    st.ctx_meta = ctx.infos.map (fun info => info.t) →
    st.n_tensors = ctx.infos.length → st.params.n_split_tensors = c →
    st.i_split_tensors_data = k → unique_names ctx → ctx.infos.length - i ≤ fuel →
    split_start_populate fuel i st = .ok { st with
      ctx_out := (((ctx.infos.drop i).take ((k + 1) * c - i)).map (fun info => info.t)).foldl
        gguf_add_tensor st.ctx_out } := by
  induction fuel with
  | zero =>
    intro i st ctx c k hk hg hm hn hc hd hu hf
    have : ctx.infos.drop i = [] := by
      apply List.drop_eq_nil_of_le; omega
    simp [split_start_populate, this]
  | succ fuel ih =>
    intro i st ctx c k hk hg hm hn hc hd hu hf
    subst hg
    unfold split_start_populate
    by_cases hi : i < st.ctx_gguf.infos.length
    · have hget : ggml_get_tensor st.ctx_meta (gguf_get_tensor_name st.ctx_gguf i)
          = some (st.ctx_gguf.infos[i]).t := by
        rw [hm]; exact get_tensor_at st.ctx_gguf hu i hi
      rw [if_pos (by rw [hn]; exact hi), hget]
      simp only []
      rw [include_max_tensors st i _ c k hk hc hd]
      simp only []
      by_cases hlt : i < (k + 1) * c
      · simp only [hlt, decide_True, if_true]
        have h := ih (i + 1) { st with ctx_out := gguf_add_tensor st.ctx_out (st.ctx_gguf.infos[i]).t }
          st.ctx_gguf c k hk rfl hm hn hc hd hu (by omega)
        rw [h]
        congr 2
        rw [List.drop_eq_getElem_cons hi]
        have : (k + 1) * c - i = ((k + 1) * c - (i + 1)) + 1 := by omega
        rw [this, List.take_succ_cons]
        simp
      · simp only [hlt, decide_False, Bool.false_eq_true, if_false]
        have : (k + 1) * c - i = 0 := by omega
        simp [this]
    · rw [if_neg (by rw [hn]; exact hi)]
      have : st.ctx_gguf.infos.drop i = [] := by
        apply List.drop_eq_nil_of_le; omega
      simp [this]

theorem split_start_max_tensors (msz : gguf_context → Nat) (st : split_strategy)
    (ctx : gguf_context) (c kd : Nat)
    (hk : st.kind = .max_tensors) (hg : st.ctx_gguf = ctx)
    (hm : st.ctx_meta = ctx.infos.map (fun info => info.t))
    (hn : st.n_tensors = ctx.infos.length) (hc : st.params.n_split_tensors = c)
    (hu : unique_names ctx)
    (hnt : st.params.no_tensors_in_metadata = false ∨ 0 < st.i_split)
    (hd : (if st.params.no_tensors_in_metadata then (st.i_split : Int) - 1 else st.i_split)
      = (kd : Int)) :
    split_start msz st = .ok { st with
      ctx_out := shard_header ctx st.i_split st.n_split
        ((ctx.infos.drop st.i_tensor).take ((kd + 1) * c - st.i_tensor))
      i_split_tensors_data := (kd : Int)
      fout_path := llama_split_path st.params.output st.i_split st.n_split
      fout := { placeholder := msz (shard_header ctx st.i_split st.n_split
                  ((ctx.infos.drop st.i_tensor).take ((kd + 1) * c - st.i_tensor)))
                header := none
                header_size := 0
                data := [] }
      i_split := st.i_split + 1 } := by
  subst hg
  unfold split_start
  rw [hk]
  simp only []
  unfold split_strategy.split_start
  have hcond : (!st.params.no_tensors_in_metadata || decide (st.i_split > 0)) = true := by
    rcases hnt with h | h
    · simp [h]
    · simp [h]
  simp only [hcond, if_true, hd]
  have hp := populate_max_tensors (st.n_tensors - st.i_tensor) st.i_tensor
    { st with
      ctx_out := shard_kv st.ctx_gguf st.i_split st.n_split st.n_tensors
      i_split_tensors_data := (kd : Int) }
    st.ctx_gguf c kd hk rfl hm hn hc rfl hu (by simp [hn])
  simp only [shard_kv] at hp
  rw [hp]
  simp only [shard_header, shard_kv, hn, hk]

theorem fixed_count_next (msz : gguf_context → Nat) (P : split_params) (ctx : gguf_context)
    (data : List Nat) (N off c : Nat) (pre : List (split_path × gguf_file))
    (k i : Nat) (f : ifstream) (rd : List Nat) (nbw : Nat)
    (hu : unique_names ctx) (hb : data_in_bounds ctx data)
    (hfd : f.data = data) (hff : f.failbit = false)
    (hi : i < ctx.infos.length) (hk : k * c ≤ i) :
    ∃ f1 rd1 nbw1, f1.data = data ∧ f1.failbit = false ∧
      next_tensor (fixed_count_state msz P ctx data N off c pre k i f rd nbw)
        = .ok (fixed_count_state msz P ctx data N off c pre k (i + 1) f1 rd1 nbw1) := by
  obtain ⟨f1, rd1, h1, h2, h3⟩ := next_tensor_ok
    (fixed_count_state msz P ctx data N off c pre k i f rd nbw) ctx data
    ⟨rfl, rfl, rfl, hfd, hff⟩ hu hb hi
  refine ⟨f1, rd1, nbw + ggml_nbytes (ctx.infos[i]).t, h1, h2, ?_⟩
  rw [h3]
  simp only [fixed_count_state]
  have hp := payload_snoc data ctx.infos (k * c) (i - k * c) (by omega)
  have e1 : k * c + (i - k * c) = i := by omega
  have e2 : i - k * c + 1 = i + 1 - k * c := by omega
  simp only [e1, e2] at hp
  rw [hp]

theorem should_split_max_tensors (st : split_strategy) (c : Nat)
    (hk : st.kind = .max_tensors) (hc : st.params.n_split_tensors = c) :
    should_split st = decide (st.i_tensor % c = 0) := by
  unfold should_split
  rw [hk]
  simp only [hc]
  rw [← Int.ofNat_tmod]
  rw [Bool.eq_iff_iff]
  simp only [beq_iff_eq, decide_eq_true_eq]
  norm_cast

theorem fixed_count_split (msz : gguf_context → Nat) (P : split_params) (ctx : gguf_context)
    (data : List Nat) (N off c : Nat) (pre : List (split_path × gguf_file))
    (k : Nat) (f : ifstream) (rd : List Nat) (nbw : Nat)
    (hu : unique_names ctx) (hc : P.n_split_tensors = c)
    (hoff : off = if P.no_tensors_in_metadata then 1 else 0) :
    split_start msz (split_end msz
        (fixed_count_state msz P ctx data N off c pre k ((k + 1) * c) f rd nbw))
      = .ok (fixed_count_state msz P ctx data N off c pre (k + 1) ((k + 1) * c) f rd nbw) := by
  have hd : (if P.no_tensors_in_metadata then ((k + off + 1 : Nat) : Int) - 1
      else ((k + off + 1 : Nat) : Int)) = ((k + 1 : Nat) : Int) := by
    subst hoff
    cases P.no_tensors_in_metadata <;> simp
  rw [split_start_max_tensors msz _ ctx c (k + 1) rfl rfl rfl rfl hc hu
    (Or.inr (by simp [split_end, fixed_count_state])) hd]
  simp only [split_end, fixed_count_state, fixed_count_shard, tensor_group]
  have e1 : (k + 1) * c - k * c = c := by
    rw [Nat.add_mul]; omega
  have e2 : (k + 1 + 1) * c - (k + 1) * c = c := by
    rw [Nat.add_mul (k + 1) 1 c]; omega
  have e3 : k + 1 + off = k + off + 1 := by omega
  simp only [e1, e2, e3, Nat.sub_self, List.take_zero, payload, List.map_nil, List.flatten_nil,
    List.range_succ, List.map_append, List.map_cons, List.append_assoc, fixed_count_shard,
    tensor_group]

theorem group_boundary (c k i : Nat) (h1 : k * c ≤ i) (h2 : i < (k + 1) * c)
    (h3 : (i + 1) % c = 0) : i + 1 = (k + 1) * c := by
  have hc : 0 < c := by
    rcases Nat.eq_zero_or_pos c with h | h
    · subst h; simp at h3
    · exact h
  obtain ⟨q, hq⟩ := Nat.dvd_of_mod_eq_zero h3
  rw [hq, Nat.mul_comm c q]
  have hqk : k < q := by
    by_contra hle
    push_neg at hle
    have : q * c ≤ k * c := Nat.mul_le_mul_right c hle
    rw [Nat.mul_comm c q] at hq
    omega
  have hqk2 : q ≤ k + 1 := by
    by_contra hle
    push_neg at hle
    have : (k + 1 + 1) * c ≤ q * c := Nat.mul_le_mul_right c hle
    rw [Nat.mul_comm c q] at hq
    have : (k + 1 + 1) * c = (k + 1) * c + c := by rw [Nat.add_mul (k+1) 1 c]; omega
    omega
  have : q = k + 1 := by omega
  rw [this]

theorem fixed_count_loop (msz : gguf_context → Nat) (P : split_params) (ctx : gguf_context)
    (data : List Nat) (N off c : Nat) (pre : List (split_path × gguf_file))
    (hu : unique_names ctx) (hb : data_in_bounds ctx data) (hc : P.n_split_tensors = c)
    (hoff : off = if P.no_tensors_in_metadata then 1 else 0) (hc1 : 0 < c) (fuel : Nat) :
    ∀ (k i : Nat) (f : ifstream) (rd : List Nat) (nbw : Nat),
      f.data = data → f.failbit = false → k * c ≤ i → i ≤ ctx.infos.length →
      (i < (k + 1) * c ∨ (i = ctx.infos.length ∧ i ≤ (k + 1) * c)) →
      (k = 0 ∨ k * c < ctx.infos.length) → ctx.infos.length - i ≤ fuel →
      ∃ k1 f1 rd1 nbw1,
        split_loop msz fuel (fixed_count_state msz P ctx data N off c pre k i f rd nbw)
          = .ok (fixed_count_state msz P ctx data N off c pre k1 ctx.infos.length f1 rd1 nbw1)
        ∧ ctx.infos.length ≤ (k1 + 1) * c ∧ (k1 = 0 ∨ k1 * c < ctx.infos.length) := by
  induction fuel with
  | zero =>
    intro k i f rd nbw hfd hff hki hiT hdis hkT hfuel
    have hi : i = ctx.infos.length := by omega
    subst hi
    refine ⟨k, f, rd, nbw, ?_, ?_, hkT⟩
    · simp [split_loop, fixed_count_state]
    · omega
  | succ fuel ih =>
    intro k i f rd nbw hfd hff hki hiT hdis hkT hfuel
    by_cases hi : i < ctx.infos.length
    · obtain ⟨f1, rd1, nbw1, hf1, hf2, hnext⟩ :=
        fixed_count_next msz P ctx data N off c pre k i f rd nbw hu hb hfd hff hi hki
      have hlt : i < (k + 1) * c := by omega
      unfold split_loop
      have hcond : (fixed_count_state msz P ctx data N off c pre k i f rd nbw).i_tensor
          < (fixed_count_state msz P ctx data N off c pre k i f rd nbw).n_tensors := hi
      rw [if_pos hcond, hnext]
      simp only []
      rw [should_split_max_tensors _ c rfl hc]
      have e1 : (fixed_count_state msz P ctx data N off c pre k (i + 1) f1 rd1 nbw1).i_tensor
          = i + 1 := rfl
      have e2 : (fixed_count_state msz P ctx data N off c pre k (i + 1) f1 rd1 nbw1).n_tensors
          = ctx.infos.length := rfl
      rw [e1, e2]
      by_cases hsp : i + 1 < ctx.infos.length ∧ (i + 1) % c = 0
      · have hb1 := group_boundary c k i hki hlt hsp.2
        have hco : (decide (i + 1 < ctx.infos.length) && decide ((i + 1) % c = 0)) = true := by
          simp [hsp.1, hsp.2]
        rw [if_pos hco, hb1, fixed_count_split msz P ctx data N off c pre k f1 rd1 nbw1 hu hc hoff]
        simp only []
        have h2 : (k + 1 + 1) * c = (k + 1) * c + c := by rw [Nat.add_mul (k+1) 1 c]; omega
        exact ih (k + 1) ((k + 1) * c) f1 rd1 nbw1 hf1 hf2 (le_refl _) (by omega)
          (Or.inl (by omega)) (Or.inr (by omega)) (by omega)
      · have hco : (decide (i + 1 < ctx.infos.length) && decide ((i + 1) % c = 0)) = false := by
          rw [Bool.and_eq_false_iff]
          by_cases h1 : i + 1 < ctx.infos.length
          · right; simp; intro h; exact hsp ⟨h1, h⟩
          · left; simp; omega
        rw [hco]
        simp only [Bool.false_eq_true, if_false]
        refine ih k (i + 1) f1 rd1 nbw1 hf1 hf2 (by omega) (by omega) ?_ hkT (by omega)
        by_cases h3 : i + 1 < (k + 1) * c
        · exact Or.inl h3
        · right
          have h4 : i + 1 = (k + 1) * c := by omega
          have h5 : (i + 1) % c = 0 := by rw [h4]; exact Nat.mul_mod_left _ _
          constructor
          · by_contra hne
            exact hsp ⟨by omega, h5⟩
          · omega
    · have hi : i = ctx.infos.length := by omega
      subst hi
      refine ⟨k, f, rd, nbw, ?_, ?_, hkT⟩
      · unfold split_loop
        simp [fixed_count_state]
      · omega

theorem last_group (l : List gguf_tensor_info) (c k : Nat) (h : l.length ≤ (k + 1) * c) :
    (l.drop (k * c)).take (l.length - k * c) = (l.drop (k * c)).take c := by
  have e : (k + 1) * c = k * c + c := by rw [Nat.add_mul]; omega
  rw [List.take_of_length_le (by simp), List.take_of_length_le (by simp; omega)]

theorem fixed_count_run (msz : gguf_context → Nat) (P : split_params) (file : gguf_file)
    (ctx : gguf_context) (c : Nat)
    (hsz : P.split_size = "") (hc : P.n_split_tensors = c) (hc1 : 0 < c)
    (hfile : file.header = some ctx)
    (hu : unique_names ctx) (hb : data_in_bounds ctx file.data) :
    ∃ k1 st, gguf_split msz P (some file) = .ok st ∧
      st.closed = fixed_count_shards msz P ctx file.data c (k1 + 1) ∧
      st.n_split = ceil_div ctx.infos.length c + (if P.no_tensors_in_metadata then 1 else 0) ∧
      st.i_tensor = ctx.infos.length ∧
      ctx.infos.length ≤ (k1 + 1) * c ∧ (k1 = 0 ∨ k1 * c < ctx.infos.length) := by
  have hpos : P.n_split_tensors > 0 := by rw [hc]; exact_mod_cast hc1
  have htn : P.n_split_tensors.toNat = c := by rw [hc]; simp
  unfold gguf_split
  simp only [gguf_init_from_file, hfile, hsz, String.isEmpty, hpos]
  simp only [show ("".endPos == 0) = true from rfl, Bool.not_true, Bool.false_eq_true, if_false,
    if_true]
  unfold gguf_split_run
  cases hnt : P.no_tensors_in_metadata
  · -- tensors from the first shard on
    simp only [Bool.false_eq_true, if_false]
    have hs := split_start_max_tensors msz
      (split_strategy_max_tensors P (ifstream.open file) ctx (ctx.infos.map (fun (info : gguf_tensor_info) => info.t)))
      ctx c 0 rfl rfl rfl rfl hc hu (Or.inl hnt) (by simp [hnt, split_strategy_max_tensors, split_strategy.init])
    have hst : ∀ x, x = (fixed_count_state msz P ctx file.data (ceil_div ctx.infos.length c) 0 c []
        0 0 (ifstream.open file) [] 0) →
        split_start msz (split_strategy_max_tensors P (ifstream.open file) ctx
          (ctx.infos.map (fun (info : gguf_tensor_info) => info.t))) = .ok x := by
      intro x hx
      rw [hs, hx]
      simp [fixed_count_state, split_strategy_max_tensors, split_strategy.init, htn,
        gguf_get_n_tensors, payload, tensor_group]
    rw [hst _ rfl]
    simp only []
    obtain ⟨k1, f1, rd1, nbw1, hloop, h1, h2⟩ := fixed_count_loop msz P ctx file.data
      (ceil_div ctx.infos.length c) 0 c [] hu hb hc (by simp [hnt]) hc1
      (ctx.infos.length - 0) 0 0 (ifstream.open file) [] 0 rfl rfl (by simp) (by simp)
      (by
        by_cases h : 0 < (0 + 1) * c
        · rcases Nat.eq_zero_or_pos ctx.infos.length with h0 | h0
          · right; omega
          · left; omega
        · omega) (Or.inl rfl) (le_refl _)
    have e1 : (fixed_count_state msz P ctx file.data (ceil_div ctx.infos.length c) 0 c []
        0 0 (ifstream.open file) [] 0).n_tensors = ctx.infos.length := rfl
    have e2 : (fixed_count_state msz P ctx file.data (ceil_div ctx.infos.length c) 0 c []
        0 0 (ifstream.open file) [] 0).i_tensor = 0 := rfl
    rw [e1, e2, hloop]
    refine ⟨k1, _, rfl, ?_, ?_, rfl, h1, h2⟩
    · simp only [split_end, fixed_count_state, fixed_count_shards, hnt, Bool.false_eq_true,
        if_false, List.nil_append, List.range_succ, List.map_append, List.map_cons, List.map_nil,
        fixed_count_shard, tensor_group]
      rw [last_group ctx.infos c k1 h1]
    · simp [split_end, fixed_count_state]
  · -- a leading shard without tensors
    simp only [if_true]
    have hfirst : split_start msz
        { split_strategy_max_tensors P (ifstream.open file) ctx
            (ctx.infos.map (fun (info : gguf_tensor_info) => info.t)) with
          n_split := (split_strategy_max_tensors P (ifstream.open file) ctx
            (ctx.infos.map (fun (info : gguf_tensor_info) => info.t))).n_split + 1 }
        = .ok { split_strategy_max_tensors P (ifstream.open file) ctx
            (ctx.infos.map (fun (info : gguf_tensor_info) => info.t)) with
          n_split := ceil_div ctx.infos.length c + 1
          ctx_out := shard_header ctx 0 (ceil_div ctx.infos.length c + 1) []
          i_split_tensors_data := -1
          fout_path := llama_split_path P.output 0 (ceil_div ctx.infos.length c + 1)
          fout := { placeholder := msz (shard_header ctx 0 (ceil_div ctx.infos.length c + 1) [])
                    header := none
                    header_size := 0
                    data := [] }
          i_split := 1 } := by
      simp [split_start, split_strategy.split_start, split_strategy_max_tensors,
        split_strategy.init, hnt, htn, shard_header, shard_kv, gguf_get_n_tensors]
    rw [hfirst]
    simp only []
    have hs := split_start_max_tensors msz
      (split_end msz { split_strategy_max_tensors P (ifstream.open file) ctx
            (ctx.infos.map (fun (info : gguf_tensor_info) => info.t)) with
          n_split := ceil_div ctx.infos.length c + 1
          ctx_out := shard_header ctx 0 (ceil_div ctx.infos.length c + 1) []
          i_split_tensors_data := -1
          fout_path := llama_split_path P.output 0 (ceil_div ctx.infos.length c + 1)
          fout := { placeholder := msz (shard_header ctx 0 (ceil_div ctx.infos.length c + 1) [])
                    header := none
                    header_size := 0
                    data := [] }
          i_split := 1 })
      ctx c 0 rfl rfl rfl rfl hc hu (Or.inr (by simp [split_end]))
      (by simp [hnt, split_strategy_max_tensors, split_strategy.init, split_end])
    have hst : ∀ x, x = (fixed_count_state msz P ctx file.data (ceil_div ctx.infos.length c + 1)
        1 c [metadata_shard msz P ctx (ceil_div ctx.infos.length c + 1)]
        0 0 (ifstream.open file) [] 0) →
        split_start msz (split_end msz { split_strategy_max_tensors P (ifstream.open file) ctx
            (ctx.infos.map (fun (info : gguf_tensor_info) => info.t)) with
          n_split := ceil_div ctx.infos.length c + 1
          ctx_out := shard_header ctx 0 (ceil_div ctx.infos.length c + 1) []
          i_split_tensors_data := -1
          fout_path := llama_split_path P.output 0 (ceil_div ctx.infos.length c + 1)
          fout := { placeholder := msz (shard_header ctx 0 (ceil_div ctx.infos.length c + 1) [])
                    header := none
                    header_size := 0
                    data := [] }
          i_split := 1 }) = .ok x := by
      intro x hx
      rw [hs, hx]
      simp [fixed_count_state, split_strategy_max_tensors, split_strategy.init,
        gguf_get_n_tensors, payload, tensor_group, split_end, metadata_shard]
    rw [hst _ rfl]
    simp only []
    obtain ⟨k1, f1, rd1, nbw1, hloop, h1, h2⟩ := fixed_count_loop msz P ctx file.data
      (ceil_div ctx.infos.length c + 1) 1 c [metadata_shard msz P ctx (ceil_div ctx.infos.length c + 1)]
      hu hb hc (by simp [hnt]) hc1
      (ctx.infos.length - 0) 0 0 (ifstream.open file) [] 0 rfl rfl (by simp) (by simp)
      (by
        by_cases h : 0 < (0 + 1) * c
        · rcases Nat.eq_zero_or_pos ctx.infos.length with h0 | h0
          · right; omega
          · left; omega
        · omega) (Or.inl rfl) (le_refl _)
    have e1 : (fixed_count_state msz P ctx file.data (ceil_div ctx.infos.length c + 1) 1 c
        [metadata_shard msz P ctx (ceil_div ctx.infos.length c + 1)]
        0 0 (ifstream.open file) [] 0).n_tensors = ctx.infos.length := rfl
    have e2 : (fixed_count_state msz P ctx file.data (ceil_div ctx.infos.length c + 1) 1 c
        [metadata_shard msz P ctx (ceil_div ctx.infos.length c + 1)]
        0 0 (ifstream.open file) [] 0).i_tensor = 0 := rfl
    rw [e1, e2, hloop]
    refine ⟨k1, _, rfl, ?_, ?_, rfl, h1, h2⟩
    · simp only [split_end, fixed_count_state, fixed_count_shards, hnt,
        if_true, List.range_succ, List.map_append, List.map_cons, List.map_nil,
        fixed_count_shard, tensor_group, List.cons_append, List.nil_append]
      rw [last_group ctx.infos c k1 h1]
    · simp [split_end, fixed_count_state]

theorem gguf_set_val_infos (ctx : gguf_context) (key : String) (v : gguf_value) :
    (gguf_set_val ctx key v).infos = ctx.infos := by
  unfold gguf_set_val
  split <;> rfl

theorem gguf_set_kv_infos (ctx src : gguf_context) : (gguf_set_kv ctx src).infos = ctx.infos := by
  unfold gguf_set_kv
  generalize src.kv = l
  induction l generalizing ctx with
  | nil => rfl
  | cons a l ih => simp [List.foldl_cons, ih, gguf_set_val_infos]

theorem shard_kv_infos (ctx : gguf_context) (i n t : Nat) : (shard_kv ctx i n t).infos = [] := by
  unfold shard_kv gguf_set_val_i32 gguf_set_val_u16
  simp only [gguf_set_val_infos]
  split
  · rw [gguf_set_kv_infos]; rfl
  · rfl

theorem add_tensors_infos (ts : List ggml_tensor) (ctx : gguf_context) :
    ((ts.foldl gguf_add_tensor ctx).infos.map (fun info => info.t))
      = ctx.infos.map (fun info => info.t) ++ ts := by
  induction ts generalizing ctx with
  | nil => simp
  | cons a l ih =>
    rw [List.foldl_cons, ih]
    simp [gguf_add_tensor]

theorem add_tensors_kv (ts : List ggml_tensor) (ctx : gguf_context) :
    (ts.foldl gguf_add_tensor ctx).kv = ctx.kv := by
  induction ts generalizing ctx with
  | nil => rfl
  | cons a l ih =>
    rw [List.foldl_cons, ih]
    rfl

theorem shard_header_tensors (ctx : gguf_context) (i n : Nat) (infos : List gguf_tensor_info) :
    (shard_header ctx i n infos).infos.map (fun info => info.t)
      = infos.map (fun info => info.t) := by
  unfold shard_header
  rw [add_tensors_infos, shard_kv_infos]
  rfl

theorem ceil_div_eq (T c k : Nat) (h1 : T ≤ (k + 1) * c) (h2 : k * c < T) :
    ceil_div T c = k + 1 := by
  unfold ceil_div
  have e : (k + 1) * c = k * c + c := by rw [Nat.add_mul]; omega
  have e2 : (k + 1 + 1) * c = (k + 1) * c + c := by rw [Nat.add_mul (k + 1) 1 c]; omega
  apply Nat.div_eq_of_lt_le
  · omega
  · omega

theorem tensor_group_length (ctx : gguf_context) (c k : Nat) :
    (tensor_group ctx c k).length = min c (ctx.infos.length - k * c) := by
  simp [tensor_group]

theorem last_group_size (T c k : Nat) (h1 : T ≤ (k + 1) * c) (h2 : k * c < T) :
    T - k * c = if T % c = 0 then c else T % c := by
  have e : (k + 1) * c = k * c + c := by rw [Nat.add_mul]; omega
  have hc : 0 < c := by
    rcases Nat.eq_zero_or_pos c with h | h
    · subst h; omega
    · exact h
  by_cases h : T = (k + 1) * c
  · have : T % c = 0 := by rw [h]; exact Nat.mul_mod_left _ _
    rw [if_pos this]; omega
  · have hlt : T - k * c < c := by omega
    have hT : T = T - k * c + k * c := by omega
    have hm : T % c = T - k * c := by
      conv_lhs => rw [hT]
      rw [Nat.add_mul_mod_self_right, Nat.mod_eq_of_lt hlt]
    have : T % c ≠ 0 := by omega
    rw [if_neg this, hm]

/-- C2. Fixed-count shard distribution: with `T ≥ 1` uniquely named tensors that lie
inside the data region and a cap `c ≥ 1`, `gguf_split` completes and emits exactly
`ceil(T/c)` shards, one more when the first shard is to carry no tensors (that leading
shard lists no tensor and holds no tensor data); the `k`-th tensor-carrying shard lists
in its header, and holds the padded data of, exactly the `k`-th group of consecutive
tensors, which has `c` tensors for every shard but the last and `T mod c` tensors
(`c` when `c` divides `T`) for the last. -/
theorem fixed_count_distribution (msz : gguf_context → Nat) (P : split_params)
    (file : gguf_file) (ctx : gguf_context) (c : Nat)
    (hsz : P.split_size = "") (hc : P.n_split_tensors = c) (hc1 : 1 ≤ c)
    (hfile : file.header = some ctx) (hT : 1 ≤ ctx.infos.length)
    (hu : unique_names ctx) (hb : data_in_bounds ctx file.data) :
    ∃ st, gguf_split msz P (some file) = .ok st ∧
      st.closed.length
        = ceil_div ctx.infos.length c + (if P.no_tensors_in_metadata then 1 else 0) ∧
      (P.no_tensors_in_metadata = true →
        ∃ p f h, st.closed[0]? = some (p, f) ∧ f.header = some h ∧ h.infos = [] ∧ f.data = []) ∧
      ∀ k, k < ceil_div ctx.infos.length c →
        ∃ p f h, st.closed[k + (if P.no_tensors_in_metadata then 1 else 0)]? = some (p, f) ∧
          f.header = some h ∧
          h.infos.map (fun info => info.t) = (tensor_group ctx c k).map (fun info => info.t) ∧
          f.data = payload file.data (tensor_group ctx c k) ∧
          (tensor_group ctx c k).length
            = (if k + 1 < ceil_div ctx.infos.length c then c
               else if ctx.infos.length % c = 0 then c else ctx.infos.length % c) := by
  obtain ⟨k1, st, hrun, hcl, _, _, h1, h2⟩ :=
    fixed_count_run msz P file ctx c hsz hc hc1 hfile hu hb
  have hk1 : k1 * c < ctx.infos.length := by
    rcases h2 with h | h
    · subst h; omega
    · exact h
  have hm : ceil_div ctx.infos.length c = k1 + 1 := ceil_div_eq _ _ _ h1 hk1
  have hlen : ∀ k, k < k1 + 1 → (tensor_group ctx c k).length
      = (if k + 1 < k1 + 1 then c
         else if ctx.infos.length % c = 0 then c else ctx.infos.length % c) := by
    intro k hk
    rw [tensor_group_length]
    by_cases hlt : k + 1 < k1 + 1
    · rw [if_pos hlt]
      have : (k + 1) * c ≤ k1 * c := Nat.mul_le_mul_right c (by omega)
      have e : (k + 1) * c = k * c + c := by rw [Nat.add_mul]; omega
      omega
    · rw [if_neg hlt]
      have hk' : k = k1 := by omega
      subst hk'
      rw [← last_group_size _ _ _ h1 hk1]
      have e : (k + 1) * c = k * c + c := by rw [Nat.add_mul]; omega
      omega
  refine ⟨st, hrun, ?_, ?_, ?_⟩
  · rw [hcl, hm]
    unfold fixed_count_shards
    split <;> simp
  · intro hnt
    refine ⟨(metadata_shard msz P ctx (ceil_div ctx.infos.length c + 1)).1,
      (metadata_shard msz P ctx (ceil_div ctx.infos.length c + 1)).2,
      shard_header ctx 0 (ceil_div ctx.infos.length c + 1) [], ?_, rfl, ?_, rfl⟩
    · rw [hcl]
      simp only [fixed_count_shards, hnt, if_true, List.getElem?_cons_zero]
    · simp only [shard_header, List.map_nil, List.foldl_nil, shard_kv_infos]
  · intro k hk
    rw [hm] at hk ⊢
    cases hnt : P.no_tensors_in_metadata
    · refine ⟨(fixed_count_shard msz P ctx file.data (k1 + 1) 0 c k).1,
        (fixed_count_shard msz P ctx file.data (k1 + 1) 0 c k).2,
        shard_header ctx (k + 0) (k1 + 1) (tensor_group ctx c k),
        ?_, rfl, shard_header_tensors _ _ _ _, rfl, hlen k hk⟩
      rw [hcl]
      simp [fixed_count_shards, hnt, hk, hm]
    · refine ⟨(fixed_count_shard msz P ctx file.data (k1 + 1 + 1) 1 c k).1,
        (fixed_count_shard msz P ctx file.data (k1 + 1 + 1) 1 c k).2,
        shard_header ctx (k + 1) (k1 + 1 + 1) (tensor_group ctx c k),
        ?_, rfl, shard_header_tensors _ _ _ _, rfl, hlen k hk⟩
      rw [hcl]
      simp [fixed_count_shards, hnt, hk, hm]

/-- Witness of `fixed_count_distribution`: ten tensors of 100 bytes with a cap of three
tensors give four shards that list and hold 3, 3, 3 and 1 tensors. -/
theorem fixed_count_distribution_witness :
    (∃ st, gguf_split example_meta_size (example_params 3 false "")
        (some (example_archive ten_tensors)) = .ok st ∧
      st.closed.length
        = ceil_div (example_ctx ten_tensors).infos.length 3
          + (if (example_params 3 false "").no_tensors_in_metadata then 1 else 0) ∧
      ((example_params 3 false "").no_tensors_in_metadata = true →
        ∃ p f h, st.closed[0]? = some (p, f) ∧ f.header = some h ∧ h.infos = [] ∧ f.data = []) ∧
      ∀ k, k < ceil_div (example_ctx ten_tensors).infos.length 3 →
        ∃ p f h, st.closed[k
            + (if (example_params 3 false "").no_tensors_in_metadata then 1 else 0)]?
              = some (p, f) ∧
          f.header = some h ∧
          h.infos.map (fun info => info.t)
            = (tensor_group (example_ctx ten_tensors) 3 k).map (fun info => info.t) ∧
          f.data = payload (example_archive ten_tensors).data
            (tensor_group (example_ctx ten_tensors) 3 k) ∧
          (tensor_group (example_ctx ten_tensors) 3 k).length
            = (if k + 1 < ceil_div (example_ctx ten_tensors).infos.length 3 then 3
               else if (example_ctx ten_tensors).infos.length % 3 = 0 then 3
               else (example_ctx ten_tensors).infos.length % 3)) ∧
    (shards_of (gguf_split example_meta_size (example_params 3 false "")
        (some (example_archive ten_tensors)))).map header_names
      = some [["t0", "t1", "t2"], ["t3", "t4", "t5"], ["t6", "t7", "t8"], ["t9"]] ∧
    (shards_of (gguf_split example_meta_size (example_params 3 false "")
        (some (example_archive ten_tensors)))).map data_lengths
      = some [384, 384, 384, 128] :=
  ⟨fixed_count_distribution example_meta_size (example_params 3 false "")
      (example_archive ten_tensors) (example_ctx ten_tensors) 3 rfl rfl (by decide)
      (by decide) (by decide) (by decide) (by decide),
   by decide, by decide⟩

/-- C3, at a failing input. Under the fixed-size policy with `--split-max-size 1M`, an
archive of three tensors of 800 KiB is split into two shards whose headers list `t0`
and `t2`: tensor `t1` is listed in no header.  With the ten tensors of 100 bytes and a
cap of 256 bytes the headers list `t2` nowhere and `t6` to `t9` twice. -/
theorem max_size_headers_miss_tensor :
    (example_ctx three_tensors).infos.map (fun info => info.t.name) = ["t0", "t1", "t2"] ∧
    (shards_of (gguf_split example_meta_size (example_params 128 false "1M")
        (some (example_archive three_tensors)))).map header_names
      = some [["t0"], ["t2"]] ∧
    (shards_of (gguf_split_max_size example_meta_size (example_params 128 false "")
        (example_archive ten_tensors) 256)).map header_names
      = some [["t0", "t1"], ["t3", "t4", "t5", "t6", "t7"], ["t6", "t7", "t8", "t9"],
          ["t8", "t9"]] := by
  refine ⟨by decide, by decide, by decide⟩

/-- C4, at a failing input. Under the fixed-size policy with `--split-max-size 1M` and
three tensors of 800 KiB, `next_tensor` streams all three tensors (2457600 bytes) while
the two shard headers list two of them.  At one 4096th of the sizes (tensors of 200
bytes, cap 256) the first shard holds 448 bytes after its header although the header
lists one tensor of 224 padded bytes: the file has 672 bytes and not the 448 that the
header announces. -/
theorem max_size_header_payload_mismatch :
    (shards_of (gguf_split example_meta_size (example_params 128 false "1M")
        (some (example_archive three_tensors)))).map header_names
      = some [["t0"], ["t2"]] ∧
    streamed_of (gguf_split example_meta_size (example_params 128 false "1M")
        (some (example_archive three_tensors))) = some (3, 2457600) ∧
    (shards_of (gguf_split_max_size example_meta_size (example_params 128 false "")
        (example_archive three_small_tensors) 256)).map header_names
      = some [["t0"], ["t2"]] ∧
    (shards_of (gguf_split_max_size example_meta_size (example_params 128 false "")
        (example_archive three_small_tensors) 256)).map data_lengths
      = some [448, 224] ∧
    (shards_of (gguf_split_max_size example_meta_size (example_params 128 false "")
        (example_archive three_small_tensors) 256)).map file_sizes
      = some [672, 384] ∧
    (shards_of (gguf_split_max_size example_meta_size (example_params 128 false "")
        (example_archive three_small_tensors) 256)).map (announced_sizes example_meta_size)
      = some [448, 384] := by
  refine ⟨by decide, by decide, by decide, by decide, by decide, by decide⟩

/-- C6, at a failing input. With `--split-max-size 1M` (1048576 bytes) and an archive
whose second tensor has 1228800 bytes, `gguf_split` raises no error: it completes with
one shard into which both tensors are streamed.  With a single tensor of 1228800 bytes
and the metadata-only first shard, the size error is raised only after `split_end` has
finalised that first shard. -/
theorem oversized_tensor_not_rejected :
    error_of (gguf_split example_meta_size (example_params 128 false "1M")
        (some (example_archive small_and_large_tensor))) = none ∧
    (shards_of (gguf_split example_meta_size (example_params 128 false "1M")
        (some (example_archive small_and_large_tensor)))).map header_names
      = some [["t0"]] ∧
    streamed_of (gguf_split example_meta_size (example_params 128 false "1M")
        (some (example_archive small_and_large_tensor))) = some (2, 1638400) ∧
    error_of (gguf_split example_meta_size (example_params 128 true "1M")
        (some (example_archive large_tensor)))
      = some (.size_too_small 0 1228800 1048576, 1) := by
  refine ⟨by decide, by decide, by decide, by decide⟩

/-- C8, counterexample. For ten tensors of 100 bytes and a cap of 256 bytes the split
does not compute a shard count of 5 with five shards of two tensors each. -/
theorem max_size_scenario_counterexample :
    ¬ (split_count_of (gguf_split_max_size example_meta_size (example_params 128 false "")
          (example_archive ten_tensors) 256) = some 5 ∧
        (shards_of (gguf_split_max_size example_meta_size (example_params 128 false "")
          (example_archive ten_tensors) 256)).map
            (fun s => (header_names s).map List.length) = some [2, 2, 2, 2, 2]) := by
  decide

/-- C8, amended. For ten tensors of 100 bytes and a cap of 256 bytes the split computes
a shard count of 4, the minimum of `ceil(1000 / 256)` and 10, and emits 4 shards. -/
theorem max_size_scenario :
    split_count_of (gguf_split_max_size example_meta_size (example_params 128 false "")
        (example_archive ten_tensors) 256) = some (min (ceil_div 1000 256) 10) ∧
    min (ceil_div 1000 256) 10 = 4 ∧
    (shards_of (gguf_split_max_size example_meta_size (example_params 128 false "")
        (example_archive ten_tensors) 256)).map List.length = some 4 := by
  refine ⟨by decide, by decide, by decide⟩

/-- C9, at a failing input. For the size strings `2G` and `2048M` the constructor of
the fixed-size policy does not set the cap to 2 GiB: the product is formed in `int`,
overflows, and its conversion to `size_t` gives 18446744071562067968. -/
theorem size_cap_overflows :
    bytes_per_split_of (split_strategy_max_size (example_params 128 false "2G")
        (ifstream.open (example_archive ten_tensors)) (example_ctx ten_tensors)
        ((example_ctx ten_tensors).infos.map (fun info => info.t)))
      = some 18446744071562067968 ∧
    bytes_per_split_of (split_strategy_max_size (example_params 128 false "2048M")
        (ifstream.open (example_archive ten_tensors)) (example_ctx ten_tensors)
        ((example_ctx ten_tensors).infos.map (fun info => info.t)))
      = some 18446744071562067968 ∧
    (18446744071562067968 : Nat) ≠ 2 * 2 ^ 30 ∧
    bytes_per_split_of (split_strategy_max_size (example_params 128 false "1G")
        (ifstream.open (example_archive ten_tensors)) (example_ctx ten_tensors)
        ((example_ctx ten_tensors).infos.map (fun info => info.t)))
      = some (1 * 2 ^ 30) := by
  refine ⟨by decide, by decide, by decide, by decide⟩

theorem read_buffer_length (f : ifstream) (buf : List Nat) (n : Nat) :
    buf.length ≤ (f.read buf n).2.length := by
  unfold ifstream.read
  by_cases hf : f.failbit = true
  · rw [if_pos hf]
  · rw [if_neg hf]
    simp only []
    by_cases hg : ((f.data.drop f.pos).take n).length < n
    · rw [if_pos hg]
      simp only [List.length_append, List.length_drop]
      omega
    · rw [if_neg hg]
      simp only [List.length_append, List.length_drop]
      omega

theorem resize_length (buf : List Nat) (n : Nat) : n ≤ (resize_read_data buf n).length := by
  unfold resize_read_data
  split
  · simp; omega
  · omega

theorem pad_facts (S : Nat) :
    GGML_PAD S GGUF_DEFAULT_ALIGNMENT - S < 32 ∧
    (S + (GGML_PAD S GGUF_DEFAULT_ALIGNMENT - S)) % 32 = 0 ∧
    (GGML_PAD S GGUF_DEFAULT_ALIGNMENT - S = 0 ↔ S % 32 = 0) := by
  unfold GGML_PAD GGUF_DEFAULT_ALIGNMENT
  omega

/-- C10. Padding: when `next_tensor` (split) or one round of the second pass of the
merge writes a tensor of byte size `S`, the output grows by `S` data bytes followed by
exactly `p = GGML_PAD(S, 32) - S` zero bytes, and `p < 32`, `(S + p) mod 32 = 0`, and
`p = 0` exactly when `S` is a multiple of 32. -/
theorem padding_after_tensor (st : split_strategy) (t : ggml_tensor)
    (ctx_meta : List ggml_tensor) (info : gguf_tensor_info) (rest : List gguf_tensor_info)
    (f : ifstream) (read_data out : List Nat)
    (hsplit : ggml_get_tensor st.ctx_meta (gguf_get_tensor_name st.ctx_gguf st.i_tensor) = some t)
    (hmerge : ggml_get_tensor ctx_meta info.t.name = some t) :
    (∃ st1 bytes, next_tensor st = .ok st1 ∧ bytes.length = ggml_nbytes t ∧
      st1.fout.data = st.fout.data ++ bytes ++
        List.replicate (GGML_PAD (ggml_nbytes t) GGUF_DEFAULT_ALIGNMENT - ggml_nbytes t) 0) ∧
    (∃ f1 read_data1 bytes, bytes.length = ggml_nbytes t ∧
      merge_write_tensors ctx_meta (info :: rest) f read_data out
        = merge_write_tensors ctx_meta rest f1 read_data1
            (out ++ bytes ++
              List.replicate (GGML_PAD (ggml_nbytes t) GGUF_DEFAULT_ALIGNMENT - ggml_nbytes t) 0)) ∧
    GGUF_DEFAULT_ALIGNMENT = 32 ∧
    GGML_PAD (ggml_nbytes t) GGUF_DEFAULT_ALIGNMENT - ggml_nbytes t < 32 ∧
    (ggml_nbytes t + (GGML_PAD (ggml_nbytes t) GGUF_DEFAULT_ALIGNMENT - ggml_nbytes t)) % 32 = 0 ∧
    (GGML_PAD (ggml_nbytes t) GGUF_DEFAULT_ALIGNMENT - ggml_nbytes t = 0
      ↔ ggml_nbytes t % 32 = 0) := by
  obtain ⟨p1, p2, p3⟩ := pad_facts (ggml_nbytes t)
  refine ⟨?_, ?_, rfl, p1, p2, p3⟩
  · have hn : ∃ st1, next_tensor st = .ok st1 ∧
        st1.fout.data = st.fout.data ++
          (((st.f_input.seekg (gguf_get_tensor_offset st.ctx_gguf st.i_tensor)).read
            (resize_read_data st.read_data (ggml_nbytes t)) (ggml_nbytes t)).2).take
              (ggml_nbytes t) ++
          List.replicate (GGML_PAD (ggml_nbytes t) GGUF_DEFAULT_ALIGNMENT - ggml_nbytes t) 0 := by
      unfold next_tensor
      rw [hsplit]
      exact ⟨_, rfl, by simp [zeros]⟩
    obtain ⟨st1, h1, h2⟩ := hn
    refine ⟨st1, _, h1, ?_, h2⟩
    rw [List.length_take]
    have := read_buffer_length (st.f_input.seekg (gguf_get_tensor_offset st.ctx_gguf st.i_tensor))
      (resize_read_data st.read_data (ggml_nbytes t)) (ggml_nbytes t)
    have := resize_length st.read_data (ggml_nbytes t)
    omega
  · refine ⟨((f.seekg info.offset).read
      (resize_read_data read_data (ggml_nbytes t)) (ggml_nbytes t)).1,
      ((f.seekg info.offset).read
      (resize_read_data read_data (ggml_nbytes t)) (ggml_nbytes t)).2,
      (((f.seekg info.offset).read
      (resize_read_data read_data (ggml_nbytes t)) (ggml_nbytes t)).2).take (ggml_nbytes t),
      ?_, ?_⟩
    · rw [List.length_take]
      have := read_buffer_length (f.seekg info.offset)
        (resize_read_data read_data (ggml_nbytes t)) (ggml_nbytes t)
      have := resize_length read_data (ggml_nbytes t)
      omega
    · conv_lhs => unfold merge_write_tensors
      rw [hmerge]
      simp only [zeros]

/-- Witness of `padding_after_tensor`: the first tensor (100 bytes, 28 bytes of padding)
of the archive of ten tensors. -/
theorem padding_after_tensor_witness :
    (ggml_get_tensor
        (split_strategy_max_tensors (example_params 3 false "")
          (ifstream.open (example_archive ten_tensors)) (example_ctx ten_tensors)
          ((example_ctx ten_tensors).infos.map (fun info => info.t))).ctx_meta
        (gguf_get_tensor_name (example_ctx ten_tensors) 0)
      = some { name := "t0", ttype := 24, ne := [100], nbytes := 100 }) ∧
    GGML_PAD 100 GGUF_DEFAULT_ALIGNMENT - 100 = 28 ∧
    GGML_PAD (ggml_nbytes { name := "t0", ttype := 24, ne := [100], nbytes := 100 })
        GGUF_DEFAULT_ALIGNMENT
      - ggml_nbytes { name := "t0", ttype := 24, ne := [100], nbytes := 100 } < 32 :=
  ⟨by decide, by decide,
   (padding_after_tensor
      (split_strategy_max_tensors (example_params 3 false "")
        (ifstream.open (example_archive ten_tensors)) (example_ctx ten_tensors)
        ((example_ctx ten_tensors).infos.map (fun info => info.t)))
      { name := "t0", ttype := 24, ne := [100], nbytes := 100 }
      ((example_ctx ten_tensors).infos.map (fun info => info.t))
      (example_info "t0" 100 0) [] (ifstream.open (example_archive ten_tensors)) [] []
      (by decide) (by decide)).2.2.2.1⟩

/-! ## Split bookkeeping keys -/

theorem get_set_same (ctx : gguf_context) (k : String) (v : gguf_value) :
    gguf_get_val (gguf_set_val ctx k v) k = some v := by
  unfold gguf_get_val gguf_set_val
  by_cases h : ctx.kv.any (fun p => p.1 == k) = true
  · rw [if_pos h]
    simp only []
    generalize ctx.kv = l at h
    induction l with
    | nil => simp at h
    | cons a l ih =>
      simp only [List.map_cons, List.find?_cons]
      by_cases ha : (a.1 == k) = true
      · simp [ha]
      · simp only [ha, Bool.false_eq_true, if_false]
        simp only [List.any_cons, ha, Bool.false_or] at h
        exact ih h
  · rw [if_neg h]
    simp only []
    rw [List.find?_append]
    have : ctx.kv.find? (fun p => p.1 == k) = none := by
      rw [List.find?_eq_none]
      intro x hx hxk
      apply h
      rw [List.any_eq_true]
      exact ⟨x, hx, hxk⟩
    rw [this]
    simp

theorem get_set_other (ctx : gguf_context) (k k1 : String) (v : gguf_value) (hne : k ≠ k1) :
    gguf_get_val (gguf_set_val ctx k v) k1 = gguf_get_val ctx k1 := by
  unfold gguf_get_val gguf_set_val
  have hk : (k == k1) = false := by simpa using hne
  by_cases h : ctx.kv.any (fun p => p.1 == k) = true
  · rw [if_pos h]
    simp only []
    congr 1
    generalize ctx.kv = l
    induction l with
    | nil => rfl
    | cons a l ih =>
      simp only [List.map_cons, List.find?_cons]
      by_cases ha : (a.1 == k) = true
      · have hak : a.1 = k := by simpa using ha
        have : (a.1 == k1) = false := by rw [hak]; exact hk
        simp only [ha, if_true, hk, this]
        exact ih
      · simp only [ha, Bool.false_eq_true, if_false]
        cases hb : (a.1 == k1)
        · exact ih
        · rfl
  · rw [if_neg h]
    simp only []
    rw [List.find?_append]
    simp [hk]

theorem shard_kv_keys (ctx : gguf_context) (j n t : Nat) : shard_keys (shard_kv ctx j n t) j n t := by
  unfold shard_keys shard_kv gguf_set_val_i32 gguf_set_val_u16
  refine ⟨?_, ?_, ?_⟩
  · rw [get_set_other _ _ _ _ (by decide), get_set_other _ _ _ _ (by decide), get_set_same]
  · rw [get_set_other _ _ _ _ (by decide), get_set_same]
  · rw [get_set_same]

theorem shard_keys_congr (a b : gguf_context) (j n t : Nat) (h : a.kv = b.kv)
    (hk : shard_keys b j n t) : shard_keys a j n t := by
  unfold shard_keys gguf_get_val at *
  rw [h]
  exact hk

theorem kind_cases (st : split_strategy) :
    st.kind = .max_tensors ∨ st.kind = .max_size := by
  cases st.kind
  · exact Or.inl rfl
  · exact Or.inr rfl

theorem include_tensor_frame (st : split_strategy) (idx : Nat) (t : ggml_tensor)
    (st1 : split_strategy) (b : Bool) (h : include_tensor st idx t = .ok (st1, b)) :
    ∃ ntw, st1 = { st with n_bytes_to_write := ntw } := by
  unfold include_tensor at h
  rcases kind_cases st with hk | hk
  · rw [hk] at h
    simp only [Except.ok.injEq, Prod.mk.injEq] at h
    exact ⟨st.n_bytes_to_write, h.1.symm⟩
  · rw [hk] at h
    simp only [] at h
    split at h
    · cases h
    · simp only [Except.ok.injEq, Prod.mk.injEq] at h
      refine ⟨st.n_bytes_to_write + ggml_nbytes t, ?_⟩
      rw [← h.1, hk]

theorem populate_frame (fuel : Nat) : ∀ (i : Nat) (st st1 : split_strategy),
    split_start_populate fuel i st = .ok st1 →
    ∃ infos ntw, st1 = { st with
      ctx_out := { st.ctx_out with infos := infos }
      n_bytes_to_write := ntw } := by
  induction fuel with
  | zero =>
    intro i st st1 h
    simp only [split_start_populate, Except.ok.injEq] at h
    exact ⟨st.ctx_out.infos, st.n_bytes_to_write, h.symm⟩
  | succ fuel ih =>
    intro i st st1 h
    unfold split_start_populate at h
    split at h
    · split at h
      · cases h
      · rename_i t ht
        split at h
        · cases h
        · rename_i st2 incl hinc
          obtain ⟨ntw, hst2⟩ := include_tensor_frame st i t st2 incl hinc
          split at h
          · obtain ⟨infos, ntw1, h1⟩ := ih _ _ _ h
            refine ⟨infos, ntw1, ?_⟩
            rw [h1, hst2]
            simp [gguf_add_tensor]
          · simp only [Except.ok.injEq] at h
            exact ⟨st.ctx_out.infos, ntw, by rw [← h, hst2]⟩
    · simp only [Except.ok.injEq] at h
      exact ⟨st.ctx_out.infos, st.n_bytes_to_write, h.symm⟩

theorem base_split_start_frame (msz : gguf_context → Nat) (st st1 : split_strategy)
    (h : split_strategy.split_start msz st = .ok st1) :
    ∃ ctx_out ntw,
      ctx_out.kv = (shard_kv st.ctx_gguf st.i_split st.n_split st.n_tensors).kv ∧
      st1 = { st with
        ctx_out := ctx_out
        i_split_tensors_data :=
          if st.params.no_tensors_in_metadata then (st.i_split : Int) - 1 else st.i_split
        fout_path := llama_split_path st.params.output st.i_split st.n_split
        fout := { placeholder := msz ctx_out, header := none, header_size := 0, data := [] }
        i_split := st.i_split + 1
        n_bytes_to_write := ntw } := by
  unfold split_strategy.split_start at h
  simp only [] at h
  split at h
  · cases h
  · rename_i st2 hpop
    simp only [Except.ok.injEq] at h
    split at hpop
    · obtain ⟨infos, ntw, h2⟩ := populate_frame _ _ _ _ hpop
      refine ⟨st2.ctx_out, ntw, ?_, ?_⟩
      · rw [h2]; rfl
      · rw [← h, h2]
    · simp only [Except.ok.injEq] at hpop
      refine ⟨st2.ctx_out, st.n_bytes_to_write, ?_, ?_⟩
      · rw [← hpop]; rfl
      · rw [← h, ← hpop]

theorem split_start_frame (msz : gguf_context → Nat) (st st1 : split_strategy)
    (h : split_start msz st = .ok st1) :
    ∃ ctx_out ntw,
      ctx_out.kv = (shard_kv st.ctx_gguf st.i_split st.n_split st.n_tensors).kv ∧
      st1 = { st with
        ctx_out := ctx_out
        i_split_tensors_data :=
          if st.params.no_tensors_in_metadata then (st.i_split : Int) - 1 else st.i_split
        fout_path := llama_split_path st.params.output st.i_split st.n_split
        fout := { placeholder := msz ctx_out, header := none, header_size := 0, data := [] }
        i_split := st.i_split + 1
        n_bytes_to_write := ntw } := by
  unfold split_start at h
  rcases kind_cases st with hk | hk
  · rw [hk] at h
    exact base_split_start_frame msz st st1 h
  · rw [hk] at h
    simp only [] at h
    obtain ⟨c, ntw, h1, h2⟩ := base_split_start_frame msz _ st1 h
    refine ⟨c, ntw, h1, ?_⟩
    rw [h2]
    simp only [hk]

theorem populate_ok_max_size (fuel : Nat) : ∀ (i : Nat) (st : split_strategy)
    (ctx : gguf_context),
    st.kind = .max_size → st.ctx_gguf = ctx →
    st.ctx_meta = ctx.infos.map (fun info => info.t) →
    st.n_tensors = ctx.infos.length → unique_names ctx → st.i_tensor ≤ i →
    (i = st.i_tensor → ∀ hi : i < ctx.infos.length,
      st.n_bytes_to_write + ggml_nbytes (ctx.infos[i]).t
        ≤ (st.i_split_tensors_data + 1).toNat * st.n_bytes_per_split) →
    ∃ st1, split_start_populate fuel i st = .ok st1 := by
  induction fuel with
  | zero =>
    intro i st ctx _ _ _ _ _ _ _
    exact ⟨st, rfl⟩
  | succ fuel ih =>
    intro i st ctx hk hg hm hn hu hle hfit
    subst hg
    unfold split_start_populate
    by_cases hi : i < st.ctx_gguf.infos.length
    · have hget : ggml_get_tensor st.ctx_meta (gguf_get_tensor_name st.ctx_gguf i)
          = some (st.ctx_gguf.infos[i]).t := by
        rw [hm]; exact get_tensor_at st.ctx_gguf hu i hi
      rw [if_pos (by rw [hn]; exact hi), hget]
      simp only []
      unfold include_tensor
      rw [hk]
      simp only []
      by_cases hinc : st.n_bytes_to_write + ggml_nbytes (st.ctx_gguf.infos[i]).t
          ≤ (st.i_split_tensors_data + 1).toNat * st.n_bytes_per_split
      · simp only [hinc, decide_True, Bool.not_true, Bool.false_and, Bool.false_eq_true,
          if_false, if_true]
        exact ih (i + 1) _ st.ctx_gguf rfl rfl hm hn hu (by simp only []; omega)
          (by intro h; simp only [] at h; omega)
      · have hne : i ≠ st.i_tensor := fun h => hinc (hfit h hi)
        have hb : (i == st.i_tensor) = false := by simpa using hne
        simp only [hinc, decide_False, Bool.not_false, Bool.true_and, hb, Bool.false_eq_true,
          if_false]
        exact ⟨_, rfl⟩
    · rw [if_neg (by rw [hn]; exact hi)]
      exact ⟨st, rfl⟩

theorem split_start_ok_max_size (msz : gguf_context → Nat) (st : split_strategy)
    (ctx : gguf_context) (cap : Nat)
    (hk : st.kind = .max_size) (hg : st.ctx_gguf = ctx)
    (hm : st.ctx_meta = ctx.infos.map (fun info => info.t))
    (hn : st.n_tensors = ctx.infos.length) (hu : unique_names ctx)
    (hcap : st.n_bytes_per_split = cap)
    (hfit : ∀ info ∈ ctx.infos, ggml_nbytes info.t ≤ cap) :
    ∃ st1, split_start msz st = .ok st1 := by
  unfold split_start
  rw [hk]
  simp only []
  unfold split_strategy.split_start
  simp only []
  by_cases hcond : (!st.params.no_tensors_in_metadata || decide (st.i_split > 0)) = true
  · rw [if_pos hcond]
    have hkd : (0 : Int) ≤
        (if st.params.no_tensors_in_metadata = true then (st.i_split : Int) - 1
          else (st.i_split : Int)) := by
      cases hnt : st.params.no_tensors_in_metadata
      · simp
      · simp only [hnt, Bool.not_true, Bool.false_or, decide_eq_true_eq] at hcond
        simp only [if_true]
        omega
    obtain ⟨st2, h2⟩ := populate_ok_max_size (st.n_tensors - st.i_tensor) st.i_tensor
      { st with
        n_bytes_to_write := 0
        ctx_out := shard_kv st.ctx_gguf st.i_split st.n_split st.n_tensors
        i_split_tensors_data :=
          if st.params.no_tensors_in_metadata = true then (st.i_split : Int) - 1
          else (st.i_split : Int) }
      ctx hk hg hm hn hu (le_refl _)
      (by
        intro _ hi
        simp only [hcap, Nat.zero_add]
        have h1 := hfit _ (List.getElem_mem hi)
        have h2 : 1 ≤ ((if st.params.no_tensors_in_metadata = true then (st.i_split : Int) - 1
          else (st.i_split : Int)) + 1).toNat := by omega
        calc ggml_nbytes (ctx.infos[st.i_tensor]).t ≤ cap := h1
          _ = 1 * cap := by omega
          _ ≤ _ := Nat.mul_le_mul_right cap h2)
    simp only [shard_kv] at h2
    simp only [hk] at h2
    rw [h2]
    exact ⟨_, rfl⟩
  · rw [if_neg hcond]
    exact ⟨_, rfl⟩

theorem bytes_of_append (a b : List gguf_tensor_info) :
    bytes_of (a ++ b) = bytes_of a + bytes_of b := by
  simp [bytes_of]

theorem payload_append (data : List Nat) (a b : List gguf_tensor_info) :
    payload data (a ++ b) = payload data a ++ payload data b := by
  simp [payload]

theorem take_succ_snoc (l : List gguf_tensor_info) (i : Nat) (hi : i < l.length) :
    l.take (i + 1) = l.take i ++ [l[i]] := by
  rw [List.take_succ, List.getElem?_eq_getElem hi]
  rfl

theorem should_split_max_size (st : split_strategy) (k : Nat)
    (hk : st.kind = .max_size) (hd : st.i_split_tensors_data = (k : Int)) :
    should_split st = decide (st.n_bytes_written > (k + 1) * st.n_bytes_per_split) := by
  unfold should_split
  rw [hk]
  simp only [hd]
  rfl

theorem size_next (ctx : gguf_context) (data : List Nat) (cap off : Nat)
    (st : split_strategy) (done : List (List gguf_tensor_info)) (cur : List gguf_tensor_info)
    (hu : unique_names ctx) (hb : data_in_bounds ctx data)
    (hinv : SizeInv ctx data cap off st done cur) (hi : st.i_tensor < ctx.infos.length) :
    ∃ st1, next_tensor st = .ok st1 ∧ Loaded st1 ctx data ∧ st1.kind = .max_size ∧
      st1.n_bytes_per_split = cap ∧ st1.params = st.params ∧ st1.i_split = st.i_split ∧
      st1.i_split_tensors_data = st.i_split_tensors_data ∧
      st1.i_tensor = st.i_tensor + 1 ∧
      st1.fout.data = payload data (cur ++ [ctx.infos[st.i_tensor]]) ∧
      st1.closed = st.closed ∧
      st1.n_bytes_written = bytes_of (ctx.infos.take (st.i_tensor + 1)) ∧
      done.flatten ++ (cur ++ [ctx.infos[st.i_tensor]]) = ctx.infos.take (st.i_tensor + 1) ∧
      st1.n_tensors = ctx.infos.length ∧ st1.ctx_gguf = ctx ∧
      st1.ctx_meta = ctx.infos.map (fun info => info.t) := by
  obtain ⟨f, rd, hfd, hff, hnext⟩ := next_tensor_ok st ctx data hinv.loaded hu hb hi
  refine ⟨_, hnext, ⟨hinv.loaded.ctx_gguf, hinv.loaded.ctx_meta, hinv.loaded.n_tensors, hfd, hff⟩,
    hinv.kind, hinv.cap_eq, rfl, rfl, rfl, rfl, ?_, rfl, ?_, ?_, hinv.loaded.n_tensors,
    hinv.loaded.ctx_gguf, hinv.loaded.ctx_meta⟩
  · simp only [hinv.out, payload_append]
    simp [payload]
  · simp only [hinv.written, take_succ_snoc _ _ hi, bytes_of_append]
    simp [bytes_of]
  · rw [← List.append_assoc, hinv.streamed, take_succ_snoc _ _ hi]

theorem size_start (msz : gguf_context → Nat) (ctx : gguf_context) (data : List Nat)
    (cap off : Nat) (s : split_strategy) (done : List (List gguf_tensor_info))
    (hu : unique_names ctx) (hfit : ∀ info ∈ ctx.infos, ggml_nbytes info.t ≤ cap)
    (hl : Loaded s ctx data) (hk : s.kind = .max_size) (hc : s.n_bytes_per_split = cap)
    (ho : off = if s.params.no_tensors_in_metadata then 1 else 0)
    (hs : s.i_split = done.length + off)
    (hst : done.flatten = ctx.infos.take s.i_tensor)
    (hle : s.i_tensor ≤ ctx.infos.length)
    (hcl : s.closed.length = off + done.length)
    (hcd : (s.closed.drop off).map (fun x => x.2.data) = done.map (payload data))
    (hlead : ∀ x ∈ s.closed.take off, x.2.data = [])
    (hw : s.n_bytes_written = bytes_of (ctx.infos.take s.i_tensor))
    (hlow : done.length * cap ≤ bytes_of done.flatten)
    (hg : ∀ g ∈ done, bytes_of g.dropLast ≤ cap) :
    ∃ st2, split_start msz s = .ok st2 ∧ SizeInv ctx data cap off st2 done [] := by
  obtain ⟨st2, h2⟩ := split_start_ok_max_size msz s ctx cap hk hl.ctx_gguf hl.ctx_meta
    hl.n_tensors hu hc hfit
  obtain ⟨co, ntw, _, heq⟩ := split_start_frame msz s st2 h2
  refine ⟨st2, h2, ?_⟩
  subst heq
  exact
    { loaded := ⟨hl.ctx_gguf, hl.ctx_meta, hl.n_tensors, hl.in_data, hl.ok⟩
      kind := hk
      cap_eq := hc
      offset := ho
      i_split := by simp only [hs]
      index := by
        simp only []
        rcases Bool.eq_false_or_eq_true s.params.no_tensors_in_metadata with h | h
        · simp only [h, if_true] at ho ⊢
          omega
        · simp only [h, Bool.false_eq_true, if_false] at ho ⊢
          omega
      streamed := by simpa using hst
      le := hle
      out := by simp [payload]
      closed_len := hcl
      closed := hcd
      lead := hlead
      written := hw
      low := hlow
      groups := hg
      cur_le := by intro _; simp [bytes_of]
      cur_drop := by simp [bytes_of] }

theorem size_loop (msz : gguf_context → Nat) (ctx : gguf_context) (data : List Nat)
    (cap off : Nat) (hu : unique_names ctx) (hb : data_in_bounds ctx data)
    (hfit : ∀ info ∈ ctx.infos, ggml_nbytes info.t ≤ cap) (fuel : Nat) :
    ∀ (st : split_strategy) (done : List (List gguf_tensor_info)) (cur : List gguf_tensor_info),
      SizeInv ctx data cap off st done cur → ctx.infos.length - st.i_tensor ≤ fuel →
      ∃ st1 done1 cur1, split_loop msz fuel st = .ok st1 ∧
        SizeInv ctx data cap off st1 done1 cur1 ∧ st1.i_tensor = ctx.infos.length := by
  induction fuel with
  | zero =>
    intro st done cur hinv hf
    have hle := hinv.le
    have hn := hinv.loaded.n_tensors
    refine ⟨st, done, cur, ?_, hinv, by omega⟩
    unfold split_loop
    rw [if_neg (by omega)]
  | succ fuel ih =>
    intro st done cur hinv hf
    have hle := hinv.le
    have hn := hinv.loaded.n_tensors
    by_cases hi : st.i_tensor < ctx.infos.length
    · obtain ⟨st1, hnext, hl1, hk1, hc1, hp1, hs1, hx1, hi1, ho1, hcl1, hw1, hst1, hn1, _, _⟩ :=
        size_next ctx data cap off st done cur hu hb hinv hi
      have hsh := should_split_max_size st1 done.length hk1 (by rw [hx1]; exact hinv.index)
      have hcur := hinv.cur_le hi
      have hsum : bytes_of (ctx.infos.take (st.i_tensor + 1))
          = bytes_of done.flatten + bytes_of (cur ++ [ctx.infos[st.i_tensor]]) := by
        rw [← hst1, bytes_of_append]
      have hlast : (cur ++ [ctx.infos[st.i_tensor]]).dropLast = cur := by simp
      unfold split_loop
      rw [if_pos (by omega)]
      simp only [hnext]
      by_cases hcond : (decide (st1.i_tensor < st1.n_tensors) && should_split st1) = true
      · rw [if_pos hcond]
        simp only [Bool.and_eq_true, decide_eq_true_eq] at hcond
        obtain ⟨hlt, hsp⟩ := hcond
        rw [hsh, decide_eq_true_eq, hc1, hw1, hsum] at hsp
        obtain ⟨st2, h2, hinv2⟩ := size_start msz ctx data cap off (split_end msz st1)
          (done ++ [cur ++ [ctx.infos[st.i_tensor]]]) hu hfit
          ⟨hl1.ctx_gguf, hl1.ctx_meta, hl1.n_tensors, hl1.in_data, hl1.ok⟩ hk1 hc1
          (by simp only [split_end, hp1]; exact hinv.offset)
          (by simp only [split_end, hs1, hinv.i_split, List.length_append, List.length_singleton]
              omega)
          (by simp only [split_end, hi1, List.flatten_append, List.flatten_singleton]
              simpa using hst1)
          (by simp only [split_end, hi1]; omega)
          (by simp only [split_end, hcl1, List.length_append, List.length_singleton,
                hinv.closed_len]
              omega)
          (by
            have hlen := hinv.closed_len
            simp only [split_end, hcl1]
            rw [List.drop_append_of_le_length (by omega)]
            simp only [List.map_append, hinv.closed, List.map_cons, List.map_nil, ho1])
          (by
            have hlen := hinv.closed_len
            simp only [split_end, hcl1]
            rw [List.take_append_of_le_length (by omega)]
            exact hinv.lead)
          (by simp only [split_end, hw1, hi1])
          (by
            have hlow := hinv.low
            simp only [List.length_append, List.length_singleton, List.flatten_append,
              List.flatten_singleton]
            rw [bytes_of_append]
            have : (done.length + 1) * cap = done.length * cap + cap := by ring
            omega)
          (by
            intro g hg
            rcases List.mem_append.1 hg with hg | hg
            · exact hinv.groups g hg
            · rw [List.mem_singleton.1 hg, hlast]
              exact hcur)
        simp only [h2]
        have hi2 : st2.i_tensor = st.i_tensor + 1 := by
          obtain ⟨co, ntw, _, heq⟩ := split_start_frame msz _ st2 h2
          rw [heq]
          exact hi1
        exact ih st2 _ _ hinv2 (by omega)
      · rw [if_neg hcond]
        refine ih st1 done (cur ++ [ctx.infos[st.i_tensor]])
          { loaded := hl1
            kind := hk1
            cap_eq := hc1
            offset := by rw [hp1]; exact hinv.offset
            i_split := by rw [hs1]; exact hinv.i_split
            index := by rw [hx1]; exact hinv.index
            streamed := by rw [hi1]; exact hst1
            le := by omega
            out := ho1
            closed_len := by rw [hcl1]; exact hinv.closed_len
            closed := by rw [hcl1]; exact hinv.closed
            lead := by rw [hcl1]; exact hinv.lead
            written := by rw [hi1]; exact hw1
            low := hinv.low
            groups := hinv.groups
            cur_le := by
              intro hlt
              have hlow := hinv.low
              have hns : should_split st1 = false := by
                cases hq : should_split st1
                · rfl
                · exfalso
                  apply hcond
                  rw [hq, Bool.and_true, decide_eq_true_eq, hn1]
                  exact hlt
              rw [hsh, decide_eq_false_iff_not, hc1, hw1, hsum] at hns
              have : (done.length + 1) * cap = done.length * cap + cap := by ring
              omega
            cur_drop := by rw [hlast]; exact hcur } (by omega)
    · refine ⟨st, done, cur, ?_, hinv, by omega⟩
      unfold split_loop
      rw [if_neg (by omega)]

theorem size_finish (msz : gguf_context → Nat) (ctx : gguf_context) (data : List Nat)
    (cap off : Nat) (st1 : split_strategy) (done1 : List (List gguf_tensor_info))
    (cur1 : List gguf_tensor_info) (hinv1 : SizeInv ctx data cap off st1 done1 cur1)
    (hT : st1.i_tensor = ctx.infos.length) :
    (done1 ++ [cur1]).flatten = ctx.infos ∧
    ((split_end msz st1).closed.drop off).map (fun s => s.2.data)
      = (done1 ++ [cur1]).map (payload data) ∧
    (split_end msz st1).closed.length = off + (done1 ++ [cur1]).length ∧
    (∀ s ∈ (split_end msz st1).closed.take off, s.2.data = []) ∧
    ∀ g ∈ done1 ++ [cur1], bytes_of g.dropLast ≤ cap := by
  have hlen := hinv1.closed_len
  refine ⟨?_, ?_, ?_, ?_, ?_⟩
  · have h := hinv1.streamed
    rw [hT, List.take_length] at h
    simpa using h
  · simp only [split_end]
    rw [List.drop_append_of_le_length (by omega)]
    simp only [List.map_append, hinv1.closed, List.map_cons, List.map_nil, hinv1.out]
  · simp only [split_end, List.length_append, List.length_singleton]
    omega
  · simp only [split_end]
    rw [List.take_append_of_le_length (by omega)]
    exact hinv1.lead
  · intro g hg
    rcases List.mem_append.1 hg with hg | hg
    · exact hinv1.groups g hg
    · rw [List.mem_singleton.1 hg]
      exact hinv1.cur_drop

theorem size_run (msz : gguf_context → Nat) (P : split_params) (file : gguf_file)
    (ctx : gguf_context) (cap : Nat) (hfile : file.header = some ctx)
    (hu : unique_names ctx) (hb : data_in_bounds ctx file.data)
    (hfit : ∀ info ∈ ctx.infos, ggml_nbytes info.t ≤ cap) :
    ∃ (st : split_strategy) (groups : List (List gguf_tensor_info)),
      gguf_split_max_size msz P file cap = .ok st ∧
      groups.flatten = ctx.infos ∧
      (st.closed.drop (if P.no_tensors_in_metadata then 1 else 0)).map (fun s => s.2.data)
        = groups.map (payload file.data) ∧
      st.closed.length = (if P.no_tensors_in_metadata then 1 else 0) + groups.length ∧
      (∀ s ∈ st.closed.take (if P.no_tensors_in_metadata then 1 else 0), s.2.data = []) ∧
      ∀ g ∈ groups, bytes_of g.dropLast ≤ cap := by
  unfold gguf_split_max_size
  simp only [gguf_init_from_file, hfile]
  unfold gguf_split_run
  cases hnt : P.no_tensors_in_metadata
  · simp only [Bool.false_eq_true, if_false]
    obtain ⟨st0, h0, hinv0⟩ := size_start msz ctx file.data cap 0
      (split_strategy_max_size.with_cap P (ifstream.open file) ctx
        (ctx.infos.map (fun (info : gguf_tensor_info) => info.t)) cap) [] hu hfit
      ⟨rfl, rfl, rfl, rfl, rfl⟩ rfl rfl
      (by simp [split_strategy_max_size.with_cap, split_strategy.init, hnt]) rfl
      (by simp [split_strategy_max_size.with_cap, split_strategy.init])
      (Nat.zero_le _) rfl (by simp [split_strategy_max_size.with_cap, split_strategy.init])
      (by simp [split_strategy_max_size.with_cap, split_strategy.init])
      (by simp [split_strategy_max_size.with_cap, split_strategy.init, bytes_of])
      (by simp [bytes_of]) (by simp)
    rw [h0]
    simp only []
    obtain ⟨st1, done1, cur1, hloop, hinv1, hT⟩ := size_loop msz ctx file.data cap 0 hu hb hfit
      (st0.n_tensors - st0.i_tensor) st0 [] [] hinv0 (by rw [hinv0.loaded.n_tensors])
    rw [hloop]
    exact ⟨_, done1 ++ [cur1], rfl, size_finish msz ctx file.data cap 0 st1 done1 cur1 hinv1 hT⟩
  · simp only [if_true]
    obtain ⟨sa, ha⟩ := split_start_ok_max_size msz
      { split_strategy_max_size.with_cap P (ifstream.open file) ctx
          (ctx.infos.map (fun (info : gguf_tensor_info) => info.t)) cap with
        n_split := (split_strategy_max_size.with_cap P (ifstream.open file) ctx
          (ctx.infos.map (fun (info : gguf_tensor_info) => info.t)) cap).n_split + 1 }
      ctx cap rfl rfl rfl rfl hu rfl hfit
    obtain ⟨co, ntw, _, heq⟩ := split_start_frame msz _ sa ha
    rw [ha]
    simp only []
    have e1 : sa.ctx_gguf = ctx := by rw [heq]; rfl
    have e2 : sa.ctx_meta = ctx.infos.map (fun info => info.t) := by rw [heq]; rfl
    have e3 : sa.n_tensors = ctx.infos.length := by rw [heq]; rfl
    have e4 : sa.f_input.data = file.data := by rw [heq]; rfl
    have e5 : sa.f_input.failbit = false := by rw [heq]; rfl
    have e6 : sa.kind = .max_size := by rw [heq]; rfl
    have e7 : sa.n_bytes_per_split = cap := by rw [heq]; rfl
    have e8 : sa.params = P := by rw [heq]; rfl
    have e9 : sa.i_split = 1 := by rw [heq]; rfl
    have e10 : sa.i_tensor = 0 := by rw [heq]; rfl
    have e11 : sa.closed = [] := by rw [heq]; rfl
    have e12 : sa.fout.data = [] := by rw [heq]
    have e13 : sa.n_bytes_written = 0 := by rw [heq]; rfl
    have d1 : (split_end msz sa).closed = [(sa.fout_path,
        { sa.fout with header := some sa.ctx_out, header_size := msz sa.ctx_out })] := by
      simp only [split_end, e11, List.nil_append]
    obtain ⟨st0, h0, hinv0⟩ := size_start msz ctx file.data cap 1 (split_end msz sa) [] hu hfit
      ⟨e1, e2, e3, e4, e5⟩ e6 e7
      (show 1 = if sa.params.no_tensors_in_metadata then 1 else 0 by rw [e8, hnt]; rfl)
      (show sa.i_split = 0 + 1 by rw [e9])
      (show [].flatten = ctx.infos.take sa.i_tensor by rw [e10]; rfl)
      (show (split_end msz sa).i_tensor ≤ ctx.infos.length by
        simp only [split_end, e10]; omega)
      (show (split_end msz sa).closed.length = 1 + 0 by rw [d1]; rfl)
      (show ((split_end msz sa).closed.drop 1).map (fun x => x.2.data) = [] by rw [d1]; rfl)
      (show ∀ x ∈ (split_end msz sa).closed.take 1, x.2.data = [] by
        rw [d1]
        intro x hx
        simp only [List.take_succ_cons, List.take_zero, List.mem_singleton] at hx
        rw [hx]
        exact e12)
      (show sa.n_bytes_written = bytes_of (ctx.infos.take sa.i_tensor) by
        rw [e10, e13]; rfl)
      (by simp [bytes_of]) (by simp)
    rw [h0]
    simp only []
    obtain ⟨st1, done1, cur1, hloop, hinv1, hT⟩ := size_loop msz ctx file.data cap 1 hu hb hfit
      (st0.n_tensors - st0.i_tensor) st0 [] [] hinv0 (by rw [hinv0.loaded.n_tensors])
    rw [hloop]
    exact ⟨_, done1 ++ [cur1], rfl, size_finish msz ctx file.data cap 1 st1 done1 cur1 hinv1 hT⟩

theorem gguf_split_eq_max_size (msz : gguf_context → Nat) (P : split_params) (file : gguf_file)
    (cap : Nat) (hsz : P.split_size.isEmpty = false)
    (hcap : parse_split_size P.split_size = .ok cap) :
    gguf_split msz P (some file) = gguf_split_max_size msz P file cap := by
  unfold gguf_split gguf_split_max_size
  simp only []
  cases hh : gguf_init_from_file (some file) with
  | none => rfl
  | some p =>
    simp only [hsz, split_strategy_max_size, hcap, Bool.not_false, if_true]

/-- C5, counterexample. Ten tensors of 100 bytes, each below the cap of 256 bytes: the
run streams the tensors 0..2, 3..5, 6..7 and 8..9 into its four shards, so two shards
hold 300 bytes of tensors, and the headers of the shards list 200, 500, 400 and 200
bytes of tensors; under either reading a shard exceeds the cap. -/
theorem max_size_cap_exceeded :
    (∀ info ∈ (example_ctx ten_tensors).infos, ggml_nbytes info.t ≤ 256) ∧
    (shards_of (gguf_split_max_size example_meta_size (example_params 128 false "")
        (example_archive ten_tensors) 256)).map (fun s => s.map (fun x => x.2.data))
      = some ([(example_ctx ten_tensors).infos.take 3,
               ((example_ctx ten_tensors).infos.drop 3).take 3,
               ((example_ctx ten_tensors).infos.drop 6).take 2,
               (example_ctx ten_tensors).infos.drop 8].map
                 (payload (example_archive ten_tensors).data)) ∧
    [(example_ctx ten_tensors).infos.take 3,
     ((example_ctx ten_tensors).infos.drop 3).take 3,
     ((example_ctx ten_tensors).infos.drop 6).take 2,
     (example_ctx ten_tensors).infos.drop 8].map bytes_of = [300, 300, 200, 200] ∧
    (shards_of (gguf_split_max_size example_meta_size (example_params 128 false "")
        (example_archive ten_tensors) 256)).map header_bytes = some [200, 500, 400, 200] ∧
    ¬ 300 ≤ 256 := by
  refine ⟨by decide, by decide, by decide, by decide, by decide⟩

/-- C5, amended. When the archive loads, its tensor names are unique, its tensors lie
inside the data region and no tensor is larger than the parsed byte cap, `gguf_split`
under the fixed-size policy completes; the tensors are streamed in the source order into
consecutive shards (after one shard without data when `no_tensors_in_metadata` is set),
and in every shard the tensors streamed before its last one sum to at most the cap:
the cap is a soft limit that a shard exceeds by less than its last tensor. -/
theorem max_size_soft_limit (msz : gguf_context → Nat) (P : split_params) (file : gguf_file)
    (ctx : gguf_context) (cap : Nat)
    (hsz : P.split_size.isEmpty = false)
    (hcap : parse_split_size P.split_size = .ok cap)
    (hfile : file.header = some ctx)
    (hu : unique_names ctx) (hb : data_in_bounds ctx file.data)
    (hfit : ∀ info ∈ ctx.infos, ggml_nbytes info.t ≤ cap) :
    ∃ (st : split_strategy) (groups : List (List gguf_tensor_info)),
      gguf_split msz P (some file) = .ok st ∧
      groups.flatten = ctx.infos ∧
      (st.closed.drop (if P.no_tensors_in_metadata then 1 else 0)).map (fun s => s.2.data)
        = groups.map (payload file.data) ∧
      st.closed.length = (if P.no_tensors_in_metadata then 1 else 0) + groups.length ∧
      (∀ s ∈ st.closed.take (if P.no_tensors_in_metadata then 1 else 0), s.2.data = []) ∧
      ∀ g ∈ groups, bytes_of g.dropLast ≤ cap := by
  rw [gguf_split_eq_max_size msz P file cap hsz hcap]
  exact size_run msz P file ctx cap hfile hu hb hfit

/-- C5, witness: three tensors of 200 bytes split with `--split-max-size 1M`. -/
theorem max_size_soft_limit_witness :
    (example_params 128 false "1M").split_size.isEmpty = false ∧
    parse_split_size (example_params 128 false "1M").split_size = .ok 1048576 ∧
    (example_archive three_small_tensors).header = some (example_ctx three_small_tensors) ∧
    unique_names (example_ctx three_small_tensors) ∧
    data_in_bounds (example_ctx three_small_tensors) (example_archive three_small_tensors).data ∧
    (∀ info ∈ (example_ctx three_small_tensors).infos, ggml_nbytes info.t ≤ 1048576) ∧
    ∃ (st : split_strategy) (groups : List (List gguf_tensor_info)),
      gguf_split example_meta_size (example_params 128 false "1M")
        (some (example_archive three_small_tensors)) = .ok st ∧
      groups.flatten = (example_ctx three_small_tensors).infos ∧
      (st.closed.drop (if (example_params 128 false "1M").no_tensors_in_metadata then 1 else 0)).map
          (fun s => s.2.data)
        = groups.map (payload (example_archive three_small_tensors).data) ∧
      st.closed.length
        = (if (example_params 128 false "1M").no_tensors_in_metadata then 1 else 0)
          + groups.length ∧
      (∀ s ∈ st.closed.take
          (if (example_params 128 false "1M").no_tensors_in_metadata then 1 else 0),
        s.2.data = []) ∧
      ∀ g ∈ groups, bytes_of g.dropLast ≤ 1048576 :=
  ⟨by decide, rfl, by decide, by decide, by decide, by decide,
    max_size_soft_limit example_meta_size (example_params 128 false "1M")
      (example_archive three_small_tensors) (example_ctx three_small_tensors) 1048576
      (by decide) rfl (by decide) (by decide) (by decide) (by decide)⟩

theorem next_offset_snoc (infos : List gguf_tensor_info) (a : gguf_tensor_info) :
    next_offset (infos ++ [a])
      = a.offset + GGML_PAD (ggml_nbytes a.t) GGUF_DEFAULT_ALIGNMENT := by
  simp [next_offset]

theorem add_tensor_infos (ctx : gguf_context) (t : ggml_tensor) :
    (gguf_add_tensor ctx t).infos = ctx.infos ++ [{ t := t, offset := next_offset ctx.infos }] := by
  unfold gguf_add_tensor next_offset
  rfl

theorem add_tensors_layout (ts : List ggml_tensor) : ∀ (ctx : gguf_context),
    (ts.foldl gguf_add_tensor ctx).infos
      = ctx.infos ++ tensor_layout ts (next_offset ctx.infos) := by
  induction ts with
  | nil => intro ctx; simp [tensor_layout]
  | cons t ts ih =>
    intro ctx
    rw [List.foldl_cons, ih, add_tensor_infos, next_offset_snoc]
    simp [tensor_layout]

theorem shard_header_infos (ctx : gguf_context) (j N : Nat) (g : List gguf_tensor_info) :
    (shard_header ctx j N g).infos = tensor_layout (g.map (fun info => info.t)) 0 := by
  unfold shard_header
  rw [add_tensors_layout, shard_kv_infos]
  rfl

theorem tensor_data_length (data : List Nat) (a : gguf_tensor_info)
    (h : a.offset + ggml_nbytes a.t ≤ data.length) :
    (tensor_data data a).length = ggml_nbytes a.t := by
  simp [tensor_data]
  omega

theorem pad_ge (n : Nat) : n ≤ GGML_PAD n GGUF_DEFAULT_ALIGNMENT := by
  unfold GGML_PAD GGUF_DEFAULT_ALIGNMENT
  omega

theorem padded_tensor_length (data : List Nat) (a : gguf_tensor_info)
    (h : a.offset + ggml_nbytes a.t ≤ data.length) :
    (padded_tensor data a).length = GGML_PAD (ggml_nbytes a.t) GGUF_DEFAULT_ALIGNMENT := by
  have := pad_ge (ggml_nbytes a.t)
  simp only [padded_tensor, List.length_append, tensor_data_length data a h,
    List.length_replicate]
  omega

theorem payload_length (data : List Nat) (g : List gguf_tensor_info)
    (h : ∀ info ∈ g, info.offset + ggml_nbytes info.t ≤ data.length) :
    (payload data g).length = padded_size g := by
  induction g with
  | nil => rfl
  | cons a g ih =>
    have h1 := padded_tensor_length data a (h a (List.mem_cons_self _ _))
    have h2 := ih (fun info hi => h info (List.mem_cons_of_mem _ hi))
    simp only [payload, List.map_cons, List.flatten_cons, List.length_append, padded_size,
      List.sum_cons] at h2 ⊢
    rw [h1, h2]

theorem padded_size_snoc (pre : List gguf_tensor_info) (a : gguf_tensor_info) :
    padded_size (pre ++ [a])
      = padded_size pre + GGML_PAD (ggml_nbytes a.t) GGUF_DEFAULT_ALIGNMENT := by
  simp [padded_size]

theorem read_tensor_in_payload (data : List Nat) (pre suf : List gguf_tensor_info)
    (a : gguf_tensor_info)
    (hpre : ∀ info ∈ pre, info.offset + ggml_nbytes info.t ≤ data.length)
    (ha : a.offset + ggml_nbytes a.t ≤ data.length) :
    ((payload data (pre ++ a :: suf)).drop (padded_size pre)).take (ggml_nbytes a.t)
      = tensor_data data a := by
  have hl := payload_length data pre hpre
  have hp : payload data (pre ++ a :: suf)
      = payload data pre ++ (tensor_data data a ++
          (List.replicate
            (GGML_PAD (ggml_nbytes a.t) GGUF_DEFAULT_ALIGNMENT - ggml_nbytes a.t) 0
            ++ payload data suf)) := by
    simp [payload, padded_tensor]
  rw [hp, ← hl, List.drop_left, ← tensor_data_length data a ha, List.take_left]

theorem lookup_by_name (l : List ggml_tensor) (h : (l.map (fun t => t.name)).Nodup)
    (t : ggml_tensor) (ht : t ∈ l) : ggml_get_tensor l t.name = some t := by
  obtain ⟨i, hi, rfl⟩ := List.getElem_of_mem ht
  exact find_by_name l h i hi

theorem merge_add_tensors_ok (metas : List ggml_tensor) (infos : List gguf_tensor_info) :
    ∀ (c : gguf_context),
    (∀ info ∈ infos, ggml_get_tensor metas info.t.name = some info.t) →
    merge_add_tensors metas infos c
      = .ok ((infos.map (fun info => info.t)).foldl gguf_add_tensor c) := by
  induction infos with
  | nil => intro c _; rfl
  | cons a infos ih =>
    intro c h
    unfold merge_add_tensors
    rw [h a (List.mem_cons_self _ _)]
    simp only [List.map_cons, List.foldl_cons]
    exact ih _ (fun info hi => h info (List.mem_cons_of_mem _ hi))

theorem merge_write_tensors_ok (data : List Nat) (suf : List gguf_tensor_info) :
    ∀ (pre : List gguf_tensor_info) (f : ifstream) (rd out : List Nat),
    ((pre ++ suf).map (fun info => info.t.name)).Nodup →
    (∀ info ∈ pre ++ suf, info.offset + ggml_nbytes info.t ≤ data.length) →
    f.data = payload data (pre ++ suf) → f.failbit = false →
    ∃ f1 rd1, merge_write_tensors ((pre ++ suf).map (fun info => info.t))
        (tensor_layout (suf.map (fun info => info.t)) (padded_size pre)) f rd out
      = .ok (f1, rd1, out ++ payload data suf) := by
  induction suf with
  | nil =>
    intro pre f rd out _ _ _ _
    exact ⟨f, rd, by simp [tensor_layout, merge_write_tensors, payload]⟩
  | cons a suf ih =>
    intro pre f rd out hu hb hd hf
    have ha : a.offset + ggml_nbytes a.t ≤ data.length := hb a (by simp)
    have hpre : ∀ info ∈ pre, info.offset + ggml_nbytes info.t ≤ data.length :=
      fun info hi => hb info (List.mem_append_left _ hi)
    have hlook : ggml_get_tensor ((pre ++ a :: suf).map (fun info => info.t)) a.t.name
        = some a.t := by
      apply lookup_by_name
      · simpa [List.map_map] using hu
      · exact List.mem_map_of_mem _ (by simp)
    have hlen : (payload data (pre ++ a :: suf)).length = padded_size (pre ++ a :: suf) :=
      payload_length data _ hb
    have hin : padded_size pre + ggml_nbytes a.t ≤ f.data.length := by
      rw [hd, hlen]
      have := pad_ge (ggml_nbytes a.t)
      simp only [padded_size, List.map_append, List.map_cons, List.sum_append, List.sum_cons]
      omega
    obtain ⟨r1, r2, r3⟩ := read_in_bounds f (resize_read_data rd (ggml_nbytes a.t))
      (padded_size pre) (ggml_nbytes a.t) hf hin
    rw [hd, read_tensor_in_payload data pre suf a hpre ha] at r3
    have hsplit : pre ++ a :: suf = (pre ++ [a]) ++ suf := by simp
    obtain ⟨f1, rd1, hrec⟩ := ih (pre ++ [a])
      ((f.seekg (padded_size pre)).read (resize_read_data rd (ggml_nbytes a.t))
        (ggml_nbytes a.t)).1
      ((f.seekg (padded_size pre)).read (resize_read_data rd (ggml_nbytes a.t))
        (ggml_nbytes a.t)).2
      (out ++ padded_tensor data a)
      (by rw [← hsplit]; exact hu) (by rw [← hsplit]; exact hb)
      (by rw [r2, hd, hsplit]) r1
    refine ⟨f1, rd1, ?_⟩
    simp only [List.map_cons, tensor_layout]
    unfold merge_write_tensors
    rw [hlook]
    simp only []
    rw [r3]
    rw [← hsplit, padded_size_snoc] at hrec
    have hout : zeros (out ++ tensor_data data a)
        (GGML_PAD (ggml_nbytes a.t) GGUF_DEFAULT_ALIGNMENT - ggml_nbytes a.t)
        = out ++ padded_tensor data a := by
      simp [zeros, padded_tensor]
    rw [hout, hrec]
    simp [payload]

theorem layout_tensor_data (data : List Nat) (suf : List gguf_tensor_info) :
    ∀ (pre : List gguf_tensor_info),
    (∀ info ∈ pre ++ suf, info.offset + ggml_nbytes info.t ≤ data.length) →
    (tensor_layout (suf.map (fun info => info.t)) (padded_size pre)).map
        (tensor_data (payload data (pre ++ suf)))
      = suf.map (tensor_data data) := by
  induction suf with
  | nil => intro pre _; rfl
  | cons a suf ih =>
    intro pre hb
    have ha : a.offset + ggml_nbytes a.t ≤ data.length := hb a (by simp)
    have hpre : ∀ info ∈ pre, info.offset + ggml_nbytes info.t ≤ data.length :=
      fun info hi => hb info (List.mem_append_left _ hi)
    have hsplit : pre ++ a :: suf = (pre ++ [a]) ++ suf := by simp
    have hrec := ih (pre ++ [a]) (by rw [← hsplit]; exact hb)
    rw [← hsplit, padded_size_snoc] at hrec
    simp only [List.map_cons, tensor_layout, hrec, List.cons.injEq, and_true]
    exact read_tensor_in_payload data pre suf a hpre ha

theorem layout_tensors (ts : List ggml_tensor) : ∀ (offset : Nat),
    (tensor_layout ts offset).map (fun info => info.t) = ts := by
  induction ts with
  | nil => intro _; rfl
  | cons t ts ih => intro offset; simp [tensor_layout, ih]

theorem fs_open_none (fs : List (split_path × gguf_file)) (p : split_path)
    (h : p ∉ fs.map (fun s => s.1)) : fs_open fs p = none := by
  induction fs with
  | nil => rfl
  | cons a fs ih =>
    obtain ⟨q, f⟩ := a
    simp only [List.map_cons, List.mem_cons, not_or] at h
    unfold fs_open
    rw [ih h.2]
    simp only []
    rw [if_neg (fun e => h.1 e.symm)]

theorem fs_open_mem (fs : List (split_path × gguf_file)) (p : split_path) (f : gguf_file)
    (hn : (fs.map (fun s => s.1)).Nodup) (hm : (p, f) ∈ fs) : fs_open fs p = some f := by
  induction fs with
  | nil => cases hm
  | cons a fs ih =>
    obtain ⟨q, g⟩ := a
    simp only [List.map_cons, List.nodup_cons] at hn
    unfold fs_open
    rcases List.mem_cons.1 hm with h | h
    · cases h
      rw [fs_open_none fs p hn.1]
      simp
    · rw [ih hn.2 h]

theorem shard_set_paths (msz : gguf_context → Nat) (output : String) (ctx : gguf_context)
    (data : List Nat) (N : Nat) (gs : List (List gguf_tensor_info)) : ∀ (j : Nat),
    (shard_set msz output ctx data N j gs).map (fun s => s.1)
      = (List.range' j gs.length).map (fun i => llama_split_path output i N) := by
  induction gs with
  | nil => intro j; rfl
  | cons g gs ih =>
    intro j
    simp only [shard_set, List.map_cons, List.length_cons, List.range'_succ, ih (j + 1)]
    rfl

theorem shard_set_nodup (msz : gguf_context → Nat) (output : String) (ctx : gguf_context)
    (data : List Nat) (N j : Nat) (gs : List (List gguf_tensor_info)) :
    ((shard_set msz output ctx data N j gs).map (fun s => s.1)).Nodup := by
  rw [shard_set_paths]
  refine List.Nodup.map ?_ (List.nodup_range' j gs.length)
  intro a b h
  simp only [llama_split_path, split_path.mk.injEq, true_and, and_true] at h
  exact h

theorem shard_set_mem (msz : gguf_context → Nat) (output : String) (ctx : gguf_context)
    (data : List Nat) (N : Nat) (gs : List (List gguf_tensor_info)) :
    ∀ (j i : Nat) (g : List gguf_tensor_info), gs[i]? = some g →
    group_shard msz output ctx data N (j + i) g ∈ shard_set msz output ctx data N j gs := by
  induction gs with
  | nil => intro j i g h; simp at h
  | cons g0 gs ih =>
    intro j i g h
    cases i with
    | zero =>
      simp only [List.getElem?_cons_zero, Option.some.injEq] at h
      subst h
      simp [shard_set]
    | succ i =>
      simp only [List.getElem?_cons_succ] at h
      have := ih (j + 1) i g h
      simp only [shard_set, List.mem_cons]
      right
      rw [show j + (i + 1) = j + 1 + i by omega]
      exact this

theorem shard_set_open (msz : gguf_context → Nat) (output : String) (ctx : gguf_context)
    (data : List Nat) (N : Nat) (gs : List (List gguf_tensor_info))
    (i : Nat) (g : List gguf_tensor_info) (h : gs[i]? = some g) :
    fs_open (shard_set msz output ctx data N 0 gs) (llama_split_path output i N)
      = some (group_shard msz output ctx data N i g).2 := by
  have hm := shard_set_mem msz output ctx data N gs 0 i g h
  rw [Nat.zero_add] at hm
  exact fs_open_mem _ _ _ (shard_set_nodup msz output ctx data N 0 gs) hm

theorem shard_set_append (msz : gguf_context → Nat) (output : String) (ctx : gguf_context)
    (data : List Nat) (N : Nat) (a b : List (List gguf_tensor_info)) : ∀ (j : Nat),
    shard_set msz output ctx data N j (a ++ b)
      = shard_set msz output ctx data N j a ++ shard_set msz output ctx data N (j + a.length) b := by
  induction a with
  | nil => intro j; simp [shard_set]
  | cons g a ih =>
    intro j
    have h := ih (j + 1)
    rw [show j + 1 + a.length = j + (a.length + 1) by omega] at h
    show group_shard msz output ctx data N j g :: shard_set msz output ctx data N (j + 1) (a ++ b) = _
    rw [h]
    rfl

theorem shard_set_range (msz : gguf_context → Nat) (P : split_params) (ctx : gguf_context)
    (data : List Nat) (N off c m : Nat) :
    (List.range m).map (fixed_count_shard msz P ctx data N off c)
      = shard_set msz P.output ctx data N off ((List.range m).map (tensor_group ctx c)) := by
  induction m with
  | zero => rfl
  | succ m ih =>
    rw [List.range_succ, List.map_append, List.map_append, shard_set_append, ← ih]
    simp [shard_set, fixed_count_shard, group_shard, Nat.add_comm]

theorem fixed_count_shard_set (msz : gguf_context → Nat) (P : split_params)
    (ctx : gguf_context) (data : List Nat) (c m : Nat) :
    fixed_count_shards msz P ctx data c m
      = shard_set msz P.output ctx data
          (ceil_div ctx.infos.length c + (if P.no_tensors_in_metadata then 1 else 0)) 0
          (fixed_count_groups P ctx c m) := by
  unfold fixed_count_shards fixed_count_groups
  cases P.no_tensors_in_metadata
  · simp only [Bool.false_eq_true, if_false, List.nil_append, Nat.add_zero]
    exact shard_set_range msz P ctx data _ 0 c m
  · simp only [if_true, List.singleton_append, shard_set]
    rw [shard_set_range]
    rfl

theorem groups_flatten (l : List gguf_tensor_info) (c m : Nat) :
    ((List.range m).map (fun k => (l.drop (k * c)).take c)).flatten = l.take (m * c) := by
  induction m with
  | zero => simp
  | succ m ih =>
    rw [List.range_succ, List.map_append, List.flatten_append, ih]
    simp only [List.map_cons, List.map_nil, List.flatten_cons, List.flatten_nil,
      List.append_nil]
    rw [Nat.succ_mul, List.take_add]

theorem fixed_count_groups_flatten (P : split_params) (ctx : gguf_context) (c m : Nat)
    (h : ctx.infos.length ≤ m * c) : (fixed_count_groups P ctx c m).flatten = ctx.infos := by
  unfold fixed_count_groups
  have hg : (List.range m).map (tensor_group ctx c)
      = (List.range m).map (fun k => (ctx.infos.drop (k * c)).take c) := rfl
  rw [List.flatten_append, hg, groups_flatten, List.take_of_length_le h]
  cases P.no_tensors_in_metadata <;> simp

theorem fixed_count_groups_length (P : split_params) (ctx : gguf_context) (c m : Nat) :
    (fixed_count_groups P ctx c m).length
      = m + (if P.no_tensors_in_metadata then 1 else 0) := by
  unfold fixed_count_groups
  cases P.no_tensors_in_metadata <;> simp

theorem set_val_keys (c : gguf_context) (k : String) (v : gguf_value) :
    (gguf_set_val c k v).kv.map (fun p => p.1)
      = if c.kv.any (fun p => p.1 == k) then c.kv.map (fun p => p.1)
        else c.kv.map (fun p => p.1) ++ [k] := by
  unfold gguf_set_val
  by_cases h : c.kv.any (fun p => p.1 == k) = true
  · rw [if_pos h, if_pos h]
    simp only [List.map_map]
    apply List.map_congr_left
    intro p _
    simp only [Function.comp]
    split <;> rfl
  · rw [if_neg h, if_neg h]
    simp

theorem set_val_nodup (c : gguf_context) (k : String) (v : gguf_value)
    (h : (c.kv.map (fun p => p.1)).Nodup) :
    ((gguf_set_val c k v).kv.map (fun p => p.1)).Nodup := by
  rw [set_val_keys]
  by_cases hk : c.kv.any (fun p => p.1 == k) = true
  · rw [if_pos hk]; exact h
  · rw [if_neg hk]
    refine List.Nodup.append h (List.nodup_singleton k) ?_
    intro a ha hb
    rw [List.mem_singleton] at hb
    subst hb
    apply hk
    obtain ⟨p, hp, rfl⟩ := List.mem_map.1 ha
    exact List.any_eq_true.2 ⟨p, hp, by simp⟩

theorem set_kv_nodup (l : List (String × gguf_value)) : ∀ (c : gguf_context),
    (c.kv.map (fun p => p.1)).Nodup →
    ((l.foldl (fun c p => gguf_set_val c p.1 p.2) c).kv.map (fun p => p.1)).Nodup := by
  induction l with
  | nil => intro c h; exact h
  | cons a l ih => intro c h; exact ih _ (set_val_nodup c a.1 a.2 h)

theorem get_set_kv (l : List (String × gguf_value)) (c : gguf_context) (k : String)
    (v : gguf_value) (hn : (l.map (fun p => p.1)).Nodup)
    (h : (l.find? (fun p => p.1 == k)).map (fun p => p.2) = some v) :
    gguf_get_val (l.foldl (fun c p => gguf_set_val c p.1 p.2) c) k = some v := by
  induction l using List.reverseRecOn with
  | nil => simp at h
  | append_singleton l a ih =>
    rw [List.foldl_append]
    simp only [List.foldl_cons, List.foldl_nil]
    rw [List.map_append, List.nodup_append] at hn
    obtain ⟨hn1, _, hdis⟩ := hn
    rw [List.find?_append] at h
    by_cases hk : a.1 = k
    · subst hk
      rw [get_set_same]
      have hnone : l.find? (fun p => p.1 == a.1) = none := by
        rw [List.find?_eq_none]
        intro x hx hxa
        have hxa1 : x.1 = a.1 := by simpa using hxa
        exact hdis (List.mem_map_of_mem (fun p => p.1) hx) (by simp [hxa1])
      rw [hnone] at h
      simpa using h
    · rw [get_set_other _ _ _ _ hk]
      apply ih hn1
      have hlast : List.find? (fun p => p.1 == k) [a] = none := by
        simp [List.find?_cons, hk]
      rw [hlast] at h
      simpa using h

theorem find_key_u16 (hd : gguf_context) (key : String) (v : Nat)
    (h : gguf_get_val hd key = some (.u16 v)) :
    ∃ idx, gguf_find_key hd key = some idx ∧ gguf_get_val_u16 hd idx = some v := by
  unfold gguf_get_val at h
  unfold gguf_find_key gguf_get_val_u16
  generalize hd.kv = l at h
  induction l with
  | nil => simp at h
  | cons a l ih =>
    rw [List.find?_cons] at h
    rw [List.findIdx?_cons]
    by_cases hp : (a.1 == key) = true
    · rw [hp] at h
      simp only [Option.map_some', Option.some.injEq] at h
      refine ⟨0, by rw [if_pos hp], ?_⟩
      obtain ⟨a1, a2⟩ := a
      simp only at h
      subst h
      rfl
    · have hp1 : (a.1 == key) = false := by simpa using hp
      rw [hp1] at h
      obtain ⟨idx, h1, h2⟩ := ih h
      refine ⟨idx + 1, ?_, ?_⟩
      · rw [if_neg hp, List.findIdx?_succ, h1]
        rfl
      · simpa using h2

theorem header_lookups (ctx : gguf_context) (j N : Nat) (g : List gguf_tensor_info)
    (hu : (g.map (fun info => info.t.name)).Nodup) :
    ∀ info ∈ (shard_header ctx j N g).infos,
      ggml_get_tensor ((shard_header ctx j N g).infos.map (fun info => info.t)) info.t.name
        = some info.t := by
  intro info hi
  apply lookup_by_name
  · rw [shard_header_tensors]
    simpa [List.map_map] using hu
  · exact List.mem_map_of_mem _ hi

theorem group_nodup (ctx : gguf_context) (gs : List (List gguf_tensor_info))
    (hflat : gs.flatten = ctx.infos) (hu : unique_names ctx)
    (g : List gguf_tensor_info) (hg : g ∈ gs) :
    (g.map (fun info => info.t.name)).Nodup := by
  have hs := List.sublist_flatten_of_mem hg
  rw [hflat] at hs
  exact List.Nodup.sublist (hs.map _) hu

theorem group_in_bounds (ctx : gguf_context) (data : List Nat)
    (gs : List (List gguf_tensor_info))
    (hflat : gs.flatten = ctx.infos) (hb : data_in_bounds ctx data)
    (g : List gguf_tensor_info) (hg : g ∈ gs) :
    ∀ info ∈ g, info.offset + ggml_nbytes info.t ≤ data.length := by
  intro info hi
  apply hb
  rw [← hflat]
  exact List.mem_flatten.2 ⟨g, hg, hi⟩

theorem merge_read_first (msz : gguf_context → Nat) (output : String) (ctx : gguf_context)
    (data : List Nat) (gs : List (List gguf_tensor_info)) (g0 : List gguf_tensor_info)
    (h0 : gs[0]? = some g0) (hN : gs.length < 65536)
    (hu : (g0.map (fun info => info.t.name)).Nodup) (st0 : merge_state) :
    ∃ st1, merge_read_metadata (shard_set msz output ctx data gs.length 0 gs)
        (llama_split_path output 0 gs.length) 0 st0 = .ok st1 ∧
      st1.n_split = gs.length ∧ st1.shard_prefix = output ∧
      st1.ctx_out = (g0.map (fun info => info.t)).foldl gguf_add_tensor
        (gguf_set_kv st0.ctx_out
          (gguf_set_val_u16 (shard_header ctx 0 gs.length g0) LLM_KV_SPLIT_COUNT 0)) ∧
      st1.ctx_ggufs.map (fun c => c.infos)
        = st0.ctx_ggufs.map (fun c => c.infos)
          ++ [tensor_layout (g0.map (fun info => info.t)) 0] ∧
      st1.ctx_metas = st0.ctx_metas ++ [g0.map (fun info => info.t)] ∧
      st1.fout = st0.fout ∧ st1.read_data = st0.read_data := by
  have hcount : gguf_get_val (shard_header ctx 0 gs.length g0) LLM_KV_SPLIT_COUNT
      = some (.u16 gs.length) := by
    have hk := shard_kv_keys ctx 0 gs.length ctx.infos.length
    have h2 := (shard_keys_congr (shard_header ctx 0 gs.length g0) _ 0 gs.length
      ctx.infos.length (by unfold shard_header; rw [add_tensors_kv]) hk).2.1
    rw [h2, Nat.mod_eq_of_lt hN]
  obtain ⟨idx, hf1, hf2⟩ := find_key_u16 _ _ _ hcount
  have hpos : 0 < gs.length := by
    rcases gs with _ | ⟨g, gs⟩
    · simp at h0
    · simp
  have hinfos : (gguf_set_val_u16 (shard_header ctx 0 gs.length g0) LLM_KV_SPLIT_COUNT 0).infos
      = (shard_header ctx 0 gs.length g0).infos := gguf_set_val_infos _ _ _
  have hadd := merge_add_tensors_ok
    ((shard_header ctx 0 gs.length g0).infos.map (fun info => info.t))
    (shard_header ctx 0 gs.length g0).infos
    (gguf_set_kv st0.ctx_out
      (gguf_set_val_u16 (shard_header ctx 0 gs.length g0) LLM_KV_SPLIT_COUNT 0))
    (header_lookups ctx 0 gs.length g0 hu)
  rw [shard_header_tensors] at hadd
  have hopen := shard_set_open msz output ctx data gs.length gs 0 g0 h0
  have hpre : llama_split_prefix (llama_split_path output 0 gs.length) 0 gs.length
      = some output := by
    simp [ llama_split_prefix, llama_split_path]
  unfold merge_read_metadata
  simp only [gt_iff_lt, Nat.lt_irrefl, if_false, hopen, group_shard, gguf_init_from_file,
    beq_self_eq_true, if_true, hf1, hf2, show ¬ gs.length < 1 by omega, hpre, hinfos,
    shard_header_tensors, hadd]
  refine ⟨_, rfl, rfl, rfl, rfl, ?_, ?_, rfl, rfl⟩
  · simp only [List.map_append, List.map_cons, List.map_nil, hinfos, shard_header_infos]
  · simp only []

theorem take_succ_group (gs : List (List gguf_tensor_info)) (i : Nat)
    (g : List gguf_tensor_info) (h : gs[i]? = some g) : gs.take (i + 1) = gs.take i ++ [g] := by
  rw [List.take_succ, h]
  rfl

theorem merge_read_next (msz : gguf_context → Nat) (output : String) (ctx : gguf_context)
    (data : List Nat) (gs : List (List gguf_tensor_info)) (K : gguf_context)
    (i : Nat) (g : List gguf_tensor_info) (hi : 0 < i)
    (hg : gs[i]? = some g) (hu : (g.map (fun info => info.t.name)).Nodup)
    (st : merge_state) (hinv : MergeInv output gs K st i) :
    ∃ st1, merge_read_metadata (shard_set msz output ctx data gs.length 0 gs)
        (llama_split_path output 0 gs.length) i st = .ok st1 ∧
      MergeInv output gs K st1 (i + 1) ∧ st1.fout = st.fout ∧ st1.read_data = st.read_data := by
  have hopen := shard_set_open msz output ctx data gs.length gs i g hg
  have hadd := merge_add_tensors_ok
    ((shard_header ctx i gs.length g).infos.map (fun info => info.t))
    (shard_header ctx i gs.length g).infos st.ctx_out
    (header_lookups ctx i gs.length g hu)
  rw [shard_header_tensors] at hadd
  have hne : (i == 0) = false := by
    rw [beq_eq_false_iff_ne]; omega
  unfold merge_read_metadata
  simp only [gt_iff_lt, hi, if_true, hinv.shard_prefix, hinv.n_split, hopen, group_shard,
    gguf_init_from_file, hne, Bool.false_eq_true, if_false, shard_header_tensors, hadd]
  refine ⟨_, rfl, ?_, rfl, rfl⟩
  exact
    { n_split := rfl
      shard_prefix := rfl
      ctx_out := by
        simp only [take_succ_group gs i g hg, List.flatten_append, List.map_append,
          List.foldl_append, List.flatten_cons, List.flatten_nil, List.append_nil,
          hinv.ctx_out]
      ctx_ggufs := by
        simp only [take_succ_group gs i g hg, List.map_append, List.map_cons, List.map_nil,
          hinv.ctx_ggufs, shard_header_infos]
      ctx_metas := by
        simp only [take_succ_group gs i g hg, List.map_append, List.map_cons, List.map_nil,
          hinv.ctx_metas] }

theorem merge_first_pass_ok (msz : gguf_context → Nat) (output : String) (ctx : gguf_context)
    (data : List Nat) (gs : List (List gguf_tensor_info)) (K : gguf_context)
    (hflat : gs.flatten = ctx.infos) (hu : unique_names ctx) (fuel : Nat) :
    ∀ (i : Nat) (st : merge_state), 0 < i → i ≤ gs.length → gs.length - i ≤ fuel →
      MergeInv output gs K st i →
      ∃ st1, merge_first_pass (shard_set msz output ctx data gs.length 0 gs)
          (llama_split_path output 0 gs.length) fuel i st = .ok st1 ∧
        MergeInv output gs K st1 gs.length ∧ st1.fout = st.fout ∧
        st1.read_data = st.read_data := by
  induction fuel with
  | zero =>
    intro i st h0 hle hf hinv
    have : i = gs.length := by omega
    subst this
    refine ⟨st, ?_, hinv, rfl, rfl⟩
    unfold merge_first_pass
    rw [if_neg (by rw [hinv.n_split]; omega)]
  | succ fuel ih =>
    intro i st h0 hle hf hinv
    by_cases hlt : i < gs.length
    · have hg : gs[i]? = some gs[i] := List.getElem?_eq_getElem hlt
      obtain ⟨st1, h1, hinv1, hfo, hrd⟩ := merge_read_next msz output ctx data gs K i gs[i] h0 hg
        (group_nodup ctx gs hflat hu gs[i] (List.getElem_mem hlt)) st hinv
      obtain ⟨st2, h2, hinv2, hfo2, hrd2⟩ := ih (i + 1) st1 (by omega) (by omega) (by omega) hinv1
      refine ⟨st2, ?_, hinv2, by rw [hfo2, hfo], by rw [hrd2, hrd]⟩
      unfold merge_first_pass
      rw [if_pos (by rw [hinv.n_split]; exact hlt)]
      simp only [h1, h2]
    · have : i = gs.length := by omega
      subst this
      refine ⟨st, ?_, hinv, rfl, rfl⟩
      unfold merge_first_pass
      rw [if_neg (by rw [hinv.n_split]; omega)]

theorem merge_second_pass_ok (msz : gguf_context → Nat) (output : String) (ctx : gguf_context)
    (data : List Nat) (gs : List (List gguf_tensor_info)) (K : gguf_context)
    (hflat : gs.flatten = ctx.infos) (hu : unique_names ctx) (hb : data_in_bounds ctx data)
    (fuel : Nat) :
    ∀ (i : Nat) (st : merge_state), i ≤ gs.length → gs.length - i ≤ fuel →
      MergeInv output gs K st gs.length →
      st.fout.data = payload data (gs.take i).flatten →
      ∃ st1, merge_second_pass (shard_set msz output ctx data gs.length 0 gs) fuel i st
          = .ok st1 ∧
        st1.ctx_out = st.ctx_out ∧ st1.fout.data = payload data gs.flatten := by
  induction fuel with
  | zero =>
    intro i st hle hf hinv hd
    have : i = gs.length := by omega
    subst this
    refine ⟨st, ?_, rfl, by rw [hd, List.take_length]⟩
    unfold merge_second_pass
    rw [if_neg (by rw [hinv.n_split]; omega)]
  | succ fuel ih =>
    intro i st hle hf hinv hd
    by_cases hlt : i < gs.length
    · have hg : gs[i]? = some gs[i] := List.getElem?_eq_getElem hlt
      have hopen := shard_set_open msz output ctx data gs.length gs i gs[i] hg
      have hmem : gs[i] ∈ gs := List.getElem_mem hlt
      have hmeta : st.ctx_metas.get? i = some (gs[i].map (fun info => info.t)) := by
        rw [List.get?_eq_getElem?, hinv.ctx_metas, List.take_length, List.getElem?_map, hg]
        rfl
      have hgg : ∃ cg, st.ctx_ggufs.get? i = some cg ∧
          cg.infos = tensor_layout (gs[i].map (fun info => info.t)) 0 := by
        have h := congrArg (fun l => l[i]?) hinv.ctx_ggufs
        simp only [List.take_length, List.getElem?_map, hg, Option.map_some'] at h
        cases hc : st.ctx_ggufs[i]? with
        | none => rw [hc] at h; simp at h
        | some cg =>
          rw [hc] at h
          simp only [Option.map_some', Option.some.injEq] at h
          exact ⟨cg, by rw [List.get?_eq_getElem?, hc], h⟩
      obtain ⟨cg, hcg, hcgi⟩ := hgg
      obtain ⟨f1, rd1, hw⟩ := merge_write_tensors_ok data gs[i] []
        (ifstream.open (group_shard msz output ctx data gs.length i gs[i]).2) st.read_data
        st.fout.data
        (by simpa using group_nodup ctx gs hflat hu gs[i] hmem)
        (by simpa using group_in_bounds ctx data gs hflat hb gs[i] hmem)
        (by simp [ifstream.open, group_shard]) rfl
      simp only [List.nil_append, show padded_size [] = 0 from rfl] at hw
      obtain ⟨st2, h2, hco, hfd⟩ := ih (i + 1)
        { st with read_data := rd1
                  fout := { st.fout with data := st.fout.data ++ payload data gs[i] } }
        (by omega) (by omega)
        ⟨hinv.n_split, hinv.shard_prefix, hinv.ctx_out, hinv.ctx_ggufs, hinv.ctx_metas⟩
        (by
          simp only [hd, take_succ_group gs i gs[i] hg, List.flatten_append, List.flatten_cons,
            List.flatten_nil, List.append_nil, payload_append])
      refine ⟨st2, ?_, hco, hfd⟩
      unfold merge_second_pass
      rw [if_pos (by rw [hinv.n_split]; exact hlt)]
      simp only [hinv.shard_prefix, hinv.n_split] at h2
      simp only [hinv.shard_prefix, hinv.n_split, hopen, hcg, hmeta, hcgi, hw]
      exact h2
    · have : i = gs.length := by omega
      subst this
      refine ⟨st, ?_, rfl, by rw [hd, List.take_length]⟩
      unfold merge_second_pass
      rw [if_neg (by rw [hinv.n_split]; omega)]

theorem get_val_congr (a b : gguf_context) (k : String) (h : a.kv = b.kv) :
    gguf_get_val a k = gguf_get_val b k := by
  unfold gguf_get_val
  rw [h]

theorem set_kv_empty_nodup (src : gguf_context) :
    ((gguf_set_kv gguf_init_empty src).kv.map (fun p => p.1)).Nodup := by
  unfold gguf_set_kv
  exact set_kv_nodup src.kv gguf_init_empty (by simp [gguf_init_empty])

theorem get_set_kv_empty (src : gguf_context) (k : String) (v : gguf_value)
    (hn : (src.kv.map (fun p => p.1)).Nodup) (h : gguf_get_val src k = some v) :
    gguf_get_val (gguf_set_kv gguf_init_empty src) k = some v := by
  unfold gguf_set_kv
  exact get_set_kv src.kv gguf_init_empty k v hn h

theorem shard_kv_nodup (ctx : gguf_context) (N T : Nat) :
    ((shard_kv ctx 0 N T).kv.map (fun p => p.1)).Nodup := by
  unfold shard_kv gguf_set_val_i32 gguf_set_val_u16
  apply set_val_nodup
  apply set_val_nodup
  apply set_val_nodup
  simp only [beq_self_eq_true, if_true]
  exact set_kv_empty_nodup ctx

theorem shard_kv_get (ctx : gguf_context) (N T : Nat) (k : String) (v : gguf_value)
    (hn : (ctx.kv.map (fun p => p.1)).Nodup) (h : gguf_get_val ctx k = some v)
    (h1 : k ≠ LLM_KV_SPLIT_NO) (h2 : k ≠ LLM_KV_SPLIT_COUNT)
    (h3 : k ≠ LLM_KV_SPLIT_TENSORS_COUNT) :
    gguf_get_val (shard_kv ctx 0 N T) k = some v := by
  unfold shard_kv gguf_set_val_i32 gguf_set_val_u16
  rw [get_set_other _ _ _ _ (Ne.symm h3), get_set_other _ _ _ _ (Ne.symm h2),
    get_set_other _ _ _ _ (Ne.symm h1)]
  simp only [beq_self_eq_true, if_true]
  exact get_set_kv_empty ctx k v hn h

theorem merged_kv (ctx : gguf_context) (N : Nat) (g0 : List gguf_tensor_info)
    (hn : (ctx.kv.map (fun p => p.1)).Nodup) :
    (∀ key v, gguf_get_val ctx key = some v → key ≠ LLM_KV_SPLIT_NO →
      key ≠ LLM_KV_SPLIT_COUNT → key ≠ LLM_KV_SPLIT_TENSORS_COUNT →
      gguf_get_val (gguf_set_kv gguf_init_empty
        (gguf_set_val_u16 (shard_header ctx 0 N g0) LLM_KV_SPLIT_COUNT 0)) key = some v) ∧
    gguf_get_val (gguf_set_kv gguf_init_empty
        (gguf_set_val_u16 (shard_header ctx 0 N g0) LLM_KV_SPLIT_COUNT 0)) LLM_KV_SPLIT_COUNT
      = some (.u16 0) := by
  have hkv : (shard_header ctx 0 N g0).kv = (shard_kv ctx 0 N ctx.infos.length).kv := by
    unfold shard_header
    rw [add_tensors_kv]
  have hnd : ((gguf_set_val_u16 (shard_header ctx 0 N g0) LLM_KV_SPLIT_COUNT 0).kv.map
      (fun p => p.1)).Nodup := by
    unfold gguf_set_val_u16
    apply set_val_nodup
    rw [hkv]
    exact shard_kv_nodup ctx N ctx.infos.length
  constructor
  · intro key v h h1 h2 h3
    apply get_set_kv_empty _ _ _ hnd
    unfold gguf_set_val_u16
    rw [get_set_other _ _ _ _ (Ne.symm h2), get_val_congr _ _ _ hkv]
    exact shard_kv_get ctx N ctx.infos.length key v hn h h1 h2 h3
  · apply get_set_kv_empty _ _ _ hnd
    unfold gguf_set_val_u16
    rw [get_set_same]

theorem merge_shard_set (msz : gguf_context → Nat) (output : String) (ctx : gguf_context)
    (data : List Nat) (gs : List (List gguf_tensor_info))
    (hN1 : 0 < gs.length) (hN2 : gs.length < 65536)
    (hflat : gs.flatten = ctx.infos) (hu : unique_names ctx) (hb : data_in_bounds ctx data)
    (hn : (ctx.kv.map (fun p => p.1)).Nodup) :
    ∃ (merged : gguf_file) (hd : gguf_context),
      gguf_merge msz (shard_set msz output ctx data gs.length 0 gs)
        (llama_split_path output 0 gs.length) = .ok merged ∧
      merged.header = some hd ∧
      hd.infos.map (fun info => info.t) = ctx.infos.map (fun info => info.t) ∧
      hd.infos.map (tensor_data merged.data) = ctx.infos.map (tensor_data data) ∧
      (∀ key v, gguf_get_val ctx key = some v → key ≠ LLM_KV_SPLIT_NO →
        key ≠ LLM_KV_SPLIT_COUNT → key ≠ LLM_KV_SPLIT_TENSORS_COUNT →
        gguf_get_val hd key = some v) ∧
      gguf_get_val hd LLM_KV_SPLIT_COUNT = some (.u16 0) := by
  have h0 : gs[0]? = some gs[0] := List.getElem?_eq_getElem hN1
  have hmem : gs[0] ∈ gs := List.getElem_mem hN1
  obtain ⟨st1, h1, hs1, hp1, hc1, hg1, hm1, hf1, hr1⟩ := merge_read_first msz output ctx data gs
    gs[0] h0 hN2 (group_nodup ctx gs hflat hu gs[0] hmem)
    { n_split := 1
      total_tensors := 0
      ctx_out := gguf_init_empty
      fout := { placeholder := 0, header := none, header_size := 0, data := [] }
      read_data := []
      ctx_metas := []
      ctx_ggufs := []
      shard_prefix := "" }
  have hinv1 : MergeInv output gs
      (gguf_set_kv gguf_init_empty
        (gguf_set_val_u16 (shard_header ctx 0 gs.length gs[0]) LLM_KV_SPLIT_COUNT 0)) st1 1 :=
    { n_split := hs1
      shard_prefix := hp1
      ctx_out := by
        rw [hc1, take_succ_group gs 0 gs[0] h0]
        simp
      ctx_ggufs := by
        rw [hg1, take_succ_group gs 0 gs[0] h0]
        simp
      ctx_metas := by
        rw [hm1, take_succ_group gs 0 gs[0] h0]
        simp }
  obtain ⟨st2, h2, hinv2, hf2, hr2⟩ := merge_first_pass_ok msz output ctx data gs _ hflat hu
    (st1.n_split - 1) 1 st1 (by omega) (by omega) (by rw [hs1]) hinv1
  obtain ⟨st4, h4, hc4, hd4⟩ := merge_second_pass_ok msz output ctx data gs _ hflat hu hb
    st2.n_split 0
    { st2 with fout := { st2.fout with placeholder := msz st2.ctx_out } }
    (by omega) (by rw [hinv2.n_split]; omega)
    ⟨hinv2.n_split, hinv2.shard_prefix, hinv2.ctx_out, hinv2.ctx_ggufs, hinv2.ctx_metas⟩
    (by simp only [hf2, hf1, List.take_zero, List.flatten_nil]; rfl)
  have hout : st4.ctx_out = (ctx.infos.map (fun info => info.t)).foldl gguf_add_tensor
      (gguf_set_kv gguf_init_empty
        (gguf_set_val_u16 (shard_header ctx 0 gs.length gs[0]) LLM_KV_SPLIT_COUNT 0)) := by
    rw [hc4]
    simp only []
    rw [hinv2.ctx_out, List.take_length, hflat]
  have hinfos : st4.ctx_out.infos = tensor_layout (ctx.infos.map (fun info => info.t)) 0 := by
    rw [hout, add_tensors_layout, gguf_set_kv_infos]
    rfl
  have hkv := merged_kv ctx gs.length gs[0] hn
  refine ⟨{ st4.fout with header := some st4.ctx_out, header_size := msz st4.ctx_out },
    st4.ctx_out, ?_, rfl, ?_, ?_, ?_, ?_⟩
  · unfold gguf_merge
    simp only [h1, h2]
    rw [h4]
  · rw [hinfos, layout_tensors]
  · simp only [hinfos, hd4, hflat]
    exact layout_tensor_data data ctx.infos [] (by simpa using hb)
  · intro key v h a b c
    rw [hout, get_val_congr _ _ key (add_tensors_kv _ _)]
    exact hkv.1 key v h a b c
  · rw [hout]
    exact (get_val_congr _ _ _ (add_tensors_kv _ _)).trans hkv.2

/-- C1, counterexample. Under the fixed-size policy the round trip fails: with
`--split-max-size 1M` on three tensors of 800 KiB the shards record a split count of 3
but only two are written, so `gguf_merge` stops when it loads the third; for ten tensors
of 100 bytes and a cap of 256 bytes the merged archive lists thirteen tensors, without
`t2` and with `t6` to `t9` twice. Under the fixed-count policy an archive without
tensors is split into one shard that records a split count of 0, which `gguf_merge`
rejects. -/
theorem round_trip_fails :
    merge_error_of (merge_after_split example_meta_size
        (gguf_split example_meta_size (example_params 128 false "1M")
          (some (example_archive three_tensors))) "model") = some .load_failed ∧
    merged_names (merge_after_split example_meta_size
        (gguf_split_max_size example_meta_size (example_params 128 false "")
          (example_archive ten_tensors) 256) "model")
      = some ["t0", "t1", "t3", "t4", "t5", "t6", "t7", "t6", "t7", "t8", "t9", "t8", "t9"] ∧
    merge_error_of (merge_after_split example_meta_size
        (gguf_split example_meta_size (example_params 128 false "")
          (some (example_archive []))) "model") = some (.invalid_split_count 0) := by
  refine ⟨by decide, by decide, by decide⟩

/-- C1, amended. Round trip under the fixed-count policy: when the archive loads, has at
least one tensor, pairwise different tensor names and pairwise different keys, its
tensors lie inside the data region, the cap is positive and fewer than 65536 shards are
needed, `gguf_split` completes, and `gguf_merge` applied to the first shard of the files
it wrote returns an archive whose header lists the tensors of the source in the same
order, whose data bytes of every tensor are those of the source, which has every key of
the source other than the three split keys with the same value, and whose split-count
key reads 0. This holds with `no_tensors_in_metadata` on or off. -/
theorem round_trip_fixed_count (msz : gguf_context → Nat) (P : split_params)
    (file : gguf_file) (ctx : gguf_context) (c : Nat)
    (hsz : P.split_size = "") (hc : P.n_split_tensors = c) (hc1 : 0 < c)
    (hfile : file.header = some ctx)
    (hu : unique_names ctx) (hb : data_in_bounds ctx file.data)
    (hn : (ctx.kv.map (fun p => p.1)).Nodup)
    (hT : 0 < ctx.infos.length)
    (hN : ceil_div ctx.infos.length c + (if P.no_tensors_in_metadata then 1 else 0) < 65536) :
    ∃ (st : split_strategy) (merged : gguf_file) (hd : gguf_context),
      gguf_split msz P (some file) = .ok st ∧
      gguf_merge msz st.closed (llama_split_path P.output 0 st.n_split) = .ok merged ∧
      merged.header = some hd ∧
      hd.infos.map (fun info => info.t) = ctx.infos.map (fun info => info.t) ∧
      hd.infos.map (tensor_data merged.data) = ctx.infos.map (tensor_data file.data) ∧
      (∀ key v, gguf_get_val ctx key = some v → key ≠ LLM_KV_SPLIT_NO →
        key ≠ LLM_KV_SPLIT_COUNT → key ≠ LLM_KV_SPLIT_TENSORS_COUNT →
        gguf_get_val hd key = some v) ∧
      gguf_get_val hd LLM_KV_SPLIT_COUNT = some (.u16 0) := by
  obtain ⟨k1, st, hs, hclosed, hnsplit, _, h1, h2⟩ :=
    fixed_count_run msz P file ctx c hsz hc hc1 hfile hu hb
  have hk : k1 * c < ctx.infos.length := by
    rcases h2 with h2 | h2
    · rw [h2]; omega
    · exact h2
  have hceil : ceil_div ctx.infos.length c = k1 + 1 := ceil_div_eq _ c k1 h1 hk
  have hlen : (fixed_count_groups P ctx c (k1 + 1)).length
      = ceil_div ctx.infos.length c + (if P.no_tensors_in_metadata then 1 else 0) := by
    rw [fixed_count_groups_length, hceil]
  obtain ⟨merged, hd, hm, r1, r2, r3, r4, r5⟩ := merge_shard_set msz P.output ctx file.data
    (fixed_count_groups P ctx c (k1 + 1)) (by rw [hlen, hceil]; omega) (by rw [hlen]; exact hN)
    (fixed_count_groups_flatten P ctx c (k1 + 1) h1) hu hb hn
  refine ⟨st, merged, hd, hs, ?_, r1, r2, r3, r4, r5⟩
  rw [hclosed, hnsplit, fixed_count_shard_set, ← hlen]
  exact hm

/-- C1, witness: ten tensors of 100 bytes, at most three tensors per shard, with a
leading shard that carries the metadata only. -/
theorem round_trip_fixed_count_witness :
    (example_params 3 true "").split_size = "" ∧
    (example_params 3 true "").n_split_tensors = ((3 : Nat) : Int) ∧ 0 < 3 ∧
    (example_archive ten_tensors).header = some (example_ctx ten_tensors) ∧
    unique_names (example_ctx ten_tensors) ∧
    data_in_bounds (example_ctx ten_tensors) (example_archive ten_tensors).data ∧
    ((example_ctx ten_tensors).kv.map (fun p => p.1)).Nodup ∧
    0 < (example_ctx ten_tensors).infos.length ∧
    ceil_div (example_ctx ten_tensors).infos.length 3
      + (if (example_params 3 true "").no_tensors_in_metadata then 1 else 0) < 65536 ∧
    ∃ (st : split_strategy) (merged : gguf_file) (hd : gguf_context),
      gguf_split example_meta_size (example_params 3 true "")
        (some (example_archive ten_tensors)) = .ok st ∧
      gguf_merge example_meta_size st.closed
        (llama_split_path (example_params 3 true "").output 0 st.n_split) = .ok merged ∧
      merged.header = some hd ∧
      hd.infos.map (fun info => info.t)
        = (example_ctx ten_tensors).infos.map (fun info => info.t) ∧
      hd.infos.map (tensor_data merged.data)
        = (example_ctx ten_tensors).infos.map (tensor_data (example_archive ten_tensors).data) ∧
      (∀ key v, gguf_get_val (example_ctx ten_tensors) key = some v → key ≠ LLM_KV_SPLIT_NO →
        key ≠ LLM_KV_SPLIT_COUNT → key ≠ LLM_KV_SPLIT_TENSORS_COUNT →
        gguf_get_val hd key = some v) ∧
      gguf_get_val hd LLM_KV_SPLIT_COUNT = some (.u16 0) :=
  ⟨rfl, rfl, by decide, by decide, by decide, by decide, by decide, by decide, by decide,
    round_trip_fixed_count example_meta_size (example_params 3 true "")
      (example_archive ten_tensors) (example_ctx ten_tensors) 3 rfl rfl (by decide)
      (by decide) (by decide) (by decide) (by decide) (by decide) (by decide)⟩

/-! ## Short reads -/

theorem next_tensor_error (st : split_strategy) (e : split_error × List (split_path × gguf_file))
    (h : next_tensor st = .error e) : e.1 = .null_tensor := by
  unfold next_tensor at h
  split at h
  · cases h
    rfl
  · cases h

theorem next_tensor_short_read (st : split_strategy) (t : ggml_tensor)
    (hlook : ggml_get_tensor st.ctx_meta (gguf_get_tensor_name st.ctx_gguf st.i_tensor) = some t)
    (hok : st.f_input.failbit = false)
    (hshort : st.f_input.data.length - gguf_get_tensor_offset st.ctx_gguf st.i_tensor
      < ggml_nbytes t) :
    ∃ st1, next_tensor st = .ok st1 ∧ st1.f_input.failbit = true ∧
      st1.i_tensor = st.i_tensor + 1 ∧
      st1.fout.data.length
        = st.fout.data.length + GGML_PAD (ggml_nbytes t) GGUF_DEFAULT_ALIGNMENT := by
  have hpad := pad_ge (ggml_nbytes t)
  have hbuf : ggml_nbytes t ≤ (((st.f_input.seekg
      (gguf_get_tensor_offset st.ctx_gguf st.i_tensor)).read
        (resize_read_data st.read_data (ggml_nbytes t)) (ggml_nbytes t)).2).length :=
    le_trans (resize_length st.read_data (ggml_nbytes t)) (read_buffer_length _ _ _)
  unfold next_tensor
  rw [hlook]
  refine ⟨_, rfl, ?_, rfl, ?_⟩
  · simp only [ifstream.seekg, hok, Bool.false_eq_true, if_false, ifstream.read]
    rw [if_pos (by simp only [List.length_take, List.length_drop]; omega)]
  · simp only [zeros, List.length_append, List.length_take, List.length_replicate]
    omega

theorem merge_write_tensors_error (ctx_meta : List ggml_tensor)
    (infos : List gguf_tensor_info) : ∀ (f : ifstream) (rd out : List Nat) (e : split_error),
    merge_write_tensors ctx_meta infos f rd out = .error e → e = .null_tensor := by
  induction infos with
  | nil =>
    intro f rd out e h
    unfold merge_write_tensors at h
    cases h
  | cons a infos ih =>
    intro f rd out e h
    unfold merge_write_tensors at h
    split at h
    · cases h
      rfl
    · exact ih _ _ _ e h

/-- C11, at a failing input. The archive of two 100-byte tensors is cut after 168 bytes
of data, so the source holds only 40 bytes of `t1`: the split reports no error and
writes 100 bytes for `t1`, the 40 bytes read followed by 60 bytes of `t0` left in the
buffer. The merge of a shard cut in the same way reports no error and writes the same
bytes. -/
theorem short_read_not_fatal :
    tensor_data truncated_archive.data (example_info "t1" 100 128) = List.replicate 40 2 ∧
    error_of (gguf_split example_meta_size (example_params 128 false "")
        (some truncated_archive)) = none ∧
    (shards_of (gguf_split example_meta_size (example_params 128 false "")
        (some truncated_archive))).map (fun s => s.map (fun x => x.2.data))
      = some [List.replicate 100 1 ++ List.replicate 28 0
          ++ (List.replicate 40 2 ++ List.replicate 60 1) ++ List.replicate 28 0] ∧
    truncated_shards.map (fun s => (s.1, s.2.data))
      = [(llama_split_path "model" 0 1,
          List.replicate 100 1 ++ List.replicate 28 0 ++ List.replicate 40 2)] ∧
    merge_error_of (gguf_merge example_meta_size truncated_shards
        (llama_split_path "model" 0 1)) = none ∧
    merged_data (gguf_merge example_meta_size truncated_shards
        (llama_split_path "model" 0 1))
      = some (List.replicate 100 1 ++ List.replicate 28 0
          ++ (List.replicate 40 2 ++ List.replicate 60 1) ++ List.replicate 28 0) := by
  refine ⟨by decide, by decide, by decide, by decide, by decide, by decide⟩

end GgufSplit
